import Mathlib

set_option maxRecDepth 16384

/-!
Verification of the ACES governance MCP server
(`tools/governance-mcp/src/aces_governance_mcp/server.py`).

The Python source is shallowly embedded: file contents are passed in as
`String`s (the filesystem is modelled by explicit listings / optional
contents), each tool is a pure Lean function built from faithful models
of the Python string primitives it uses (`str.strip`, `str.lower`,
substring `in`, `str.splitlines`, dict insertion semantics, glob
filters).  All strings are treated at the level of their character
lists; the ASCII fragment of the Python semantics is modelled (all
governance documents and inputs of interest are ASCII).
-/

/-- Python `str.isspace` characters relevant to `str.strip()` (ASCII fragment). -/
def isPySpace (c : Char) : Bool :=
  c = ' ' || c = '\t' || c = '\n' || c = '\r' || c = '\x0b' || c = '\x0c'

/-- Python `s.strip()` (ASCII whitespace fragment). -/
def pyStrip (s : String) : String :=
  String.mk (((s.data.dropWhile isPySpace).reverse.dropWhile isPySpace).reverse)

/-- Python `str.lower` on one character (ASCII fragment). -/
def pyLowerChar (c : Char) : Char :=
  if 'A' ≤ c && c ≤ 'Z' then Char.ofNat (c.toNat + 32) else c

/-- Python `s.lower()` (ASCII fragment). -/
def pyLower (s : String) : String :=
  String.mk (s.data.map pyLowerChar)

/-- Boolean list-prefix test (`pfxB needle hay`). -/
def pfxB : List Char → List Char → Bool
  | [], _ => true
  | _ :: _, [] => false
  | a :: as, b :: bs => a = b && pfxB as bs

/-- Boolean list-infix test (`infB needle hay`): does `needle` occur
contiguously inside `hay`?  Models Python `needle in hay`. -/
def infB (needle : List Char) : List Char → Bool
  | [] => pfxB needle []
  | c :: t => pfxB needle (c :: t) || infB needle t

/-- Python `sub in s` (substring containment). -/
def strContains (s sub : String) : Bool :=
  infB sub.data s.data

/-- Python `s.startswith(p)`. -/
def strStarts (s p : String) : Bool :=
  pfxB p.data s.data

/-- Python `s.endswith(p)`. -/
def strEnds (s p : String) : Bool :=
  pfxB p.data.reverse s.data.reverse

/-- Python `sep.join(parts)`. -/
def joinSep (sep : String) (parts : List String) : String :=
  match parts with
  | [] => ""
  | x :: xs => xs.foldl (fun a b => a ++ sep ++ b) x

/-- Split a character list at newline characters; always returns one more
segment than there are newlines. -/
def splitNl : List Char → List (List Char)
  | [] => [[]]
  | c :: cs =>
    if c = '\n' then [] :: splitNl cs
    else
      match splitNl cs with
      | [] => [[c]]
      | h :: t => (c :: h) :: t

/-- Python `s.splitlines()` (for `'\n'`-separated text): like `splitNl`
but a trailing newline does not produce a final empty line. -/
def pySplitlines (s : String) : List String :=
  let ps := splitNl s.data
  (match ps.getLast? with
   | some [] => ps.dropLast
   | _ => ps).map String.mk

/-- Insertion into a Python `dict` modelled as an association list:
assigning to an existing key updates its value in place (keeping its
original position), a new key is appended at the end. -/
def dictInsert (l : List (String × String)) (kv : String × String) :
    List (String × String) :=
  if l.any (fun p => p.1 == kv.1) then
    l.map (fun p => if p.1 == kv.1 then (p.1, kv.2) else p)
  else
    l ++ [kv]

/-- Python `dict` lookup on the association-list model. -/
def dictFind (l : List (String × String)) (k : String) : Option String :=
  (l.find? (fun p => p.1 == k)).map Prod.snd

/-- The keys of an association list, in order. -/
def keysOf (l : List (String × String)) : List String :=
  l.map Prod.fst

/-- The heading marker of `_parse_sections`' regex `^#..# (.+)$`:
`level` hash characters followed by one space. -/
def hashMarks (lvl : Nat) : List Char :=
  List.replicate lvl '#' ++ [' ']

/-- Match of one line against `_parse_sections`' boundary regex
`rf"^{'#' * level} (.+)$"`; on a match the section title is the
regex group stripped of surrounding whitespace (`match.group(1).strip()`). -/
def headingTitle (lvl : Nat) (line : String) : Option String :=
  if pfxB (hashMarks lvl) line.data && decide ((hashMarks lvl).length < line.data.length)
  then some (pyStrip (String.mk (line.data.drop (hashMarks lvl).length)))
  else none

/-- Loop body of `_parse_sections`: state is the currently open section
title, its accumulated lines, and the sections dict built so far.
A flush stores `"\n".join(current_lines).strip()` under the open title,
but only when the open title is non-empty (Python string truthiness). -/
def parseAux (lvl : Nat) : String → List String → List (String × String) →
    List String → List (String × String)
  | curTitle, curLines, acc, [] =>
    if curTitle = "" then acc
    else dictInsert acc (curTitle, pyStrip (joinSep "\n" curLines))
  | curTitle, curLines, acc, l :: rest =>
    match headingTitle lvl l with
    | some t =>
      parseAux lvl t [l]
        (if curTitle = "" then acc
         else dictInsert acc (curTitle, pyStrip (joinSep "\n" curLines))) rest
    | none => parseAux lvl curTitle (curLines ++ [l]) acc rest

/-- Model of `_parse_sections(content, level)`: parse markdown into sections by
heading level.  The Python `dict[str, str]` is modelled as an ordered
association list with `dictInsert` semantics. -/
def parse_sections (content : String) (lvl : Nat := 2) :
    List (String × String) :=
  parseAux lvl "" [] [] (pySplitlines content)

/-- Reference segmentation of a line list: returns the lines before the
first boundary (the discarded preamble) and, for every boundary line, the
segment of lines it opens (its own line through the line before the next
boundary), with its stripped title. -/
def segsAux (lvl : Nat) : List String → List String × List (String × List String)
  | [] => ([], [])
  | l :: rest =>
    let r := segsAux lvl rest
    match headingTitle lvl l with
    | some t => ([], (t, l :: r.1) :: r.2)
    | none => (l :: r.1, r.2)

/-- Render one segment the way `_parse_sections` stores it: segments whose
stripped title is empty are discarded (Python string truthiness). -/
def renderSeg (seg : String × List String) : Option (String × String) :=
  if seg.1 = "" then none
  else some (seg.1, pyStrip (joinSep "\n" seg.2))

/-- Reference reading of `_parse_sections`: the titled, rendered segments
of the document, in source order (before dict last-write-wins collapse). -/
def specSections (content : String) (lvl : Nat := 2) :
    List (String × String) :=
  ((segsAux lvl (pySplitlines content)).2).filterMap renderSeg

/-- The value stored for key `k` by a sequence of dict insertions:
the value of the last binding of `k` in the list, if any. -/
def lastBind (l : List (String × String)) (k : String) : Option String :=
  (l.reverse.find? (fun p => p.1 == k)).map Prod.snd

/-- The stripped titles of the level-`lvl` heading lines of a document, in
source order. -/
def headingTitles (content : String) (lvl : Nat := 2) : List String :=
  (pySplitlines content).filterMap (headingTitle lvl)

/-- Python `s.zfill(4)`: pad with leading zeros to length 4, keeping a
leading sign in front of the padding. -/
def zfill4 (s : String) : String :=
  if 4 ≤ s.data.length then s
  else
    match s.data with
    | c :: rest =>
      if c = '+' || c = '-' then
        String.mk (c :: (List.replicate (4 - s.data.length) '0' ++ rest))
      else String.mk (List.replicate (4 - s.data.length) '0' ++ s.data)
    | [] => String.mk (List.replicate 4 '0')

/-- The decimal digit characters, as produced by `%d` formatting. -/
def digCh (d : Nat) : Char :=
  match d with
  | 0 => '0' | 1 => '1' | 2 => '2' | 3 => '3' | 4 => '4'
  | 5 => '5' | 6 => '6' | 7 => '7' | 8 => '8' | _ => '9'

/-- Python `f"{n:04d}"` for a natural number: four digits, zero padded
(more digits if the number needs them). -/
def pad4 (n : Nat) : String :=
  if n < 10000 then
    String.mk [digCh (n / 1000), digCh (n / 100 % 10), digCh (n / 10 % 10), digCh (n % 10)]
  else toString n

/-- Python `int(s)` restricted to plain digit strings (the only shape the
server feeds it); any other shape raises in Python, modelled as `none`. -/
def pyIntDigits (s : String) : Option Nat :=
  if s.data ≠ [] ∧ s.data.all (fun c => c.isDigit) then
    some (s.data.foldl (fun acc c => 10 * acc + (c.toNat - 48)) 0)
  else none

/-- Filename match for the glob `f"{num}-*.md"`:
`name = num ++ "-" ++ anything ++ ".md"`. -/
def numGlobMatch (num : String) (name : String) : Bool :=
  strStarts name (num ++ "-") && strEnds name ".md" &&
    decide (num.data.length + 4 ≤ name.data.length)

/-- Filename match for the glob `"[0-9]*.md"`: one digit, then anything,
then `".md"`. -/
def digitGlobMatch (name : String) : Bool :=
  match name.data with
  | c :: _ => c.isDigit && strEnds name ".md" && decide (4 ≤ name.data.length)
  | [] => false

/-- Python `pathlib.PurePath(n).stem`: the filename without its last
suffix (a suffix needs a dot that is not the first character). -/
def pyStem (n : String) : String :=
  match n.data.reverse.findIdx? (fun c => c = '.') with
  | none => n
  | some k =>
    if k + 1 < n.data.length then String.mk (n.data.take (n.data.length - k - 1))
    else n

/-- Python `pathlib.PurePath(p).name`: the last `/`-separated component. -/
def pyBasename (p : String) : String :=
  String.mk (p.data.reverse.takeWhile (fun c => c ≠ '/')).reverse

/-- Raw (unstripped) group of `_parse_sections`-style heading regexes,
used where the Python code does not call `.strip()` on the group. -/
def headingGroup (lvl : Nat) (line : String) : Option String :=
  if pfxB (hashMarks lvl) line.data && decide ((hashMarks lvl).length < line.data.length)
  then some (String.mk (line.data.drop (hashMarks lvl).length))
  else none

/-- Title extraction of `get_adr`/`list_adrs`:
`re.match(r"^# (.+)$", content, re.MULTILINE)` anchors at position 0, so
it matches exactly when the document's first line is `# <title>`; the raw
group is used, else the filename stem. -/
def adrTitle (name content : String) : String :=
  match pySplitlines content with
  | [] => pyStem name
  | first :: _ =>
    match headingGroup 1 first with
    | some t => t
    | none => pyStem name

/-- The numeric-stage matches of `get_adr`: files matching the glob
`f"{identifier.strip().zfill(4)}-*.md"`, in directory order. -/
def adrNumericMatches (adrFiles : List (String × String))
    (identifier : String) : List (String × String) :=
  adrFiles.filter (fun p => numGlobMatch (zfill4 (pyStrip identifier)) p.1)

/-- The keyword-stage matches of `get_adr`: the `[0-9]*.md` files whose
content contains the identifier case-insensitively, in sorted order. -/
def adrKeywordMatches (adrFiles : List (String × String))
    (identifier : String) : List (String × String) :=
  adrFiles.filter
    (fun p => digitGlobMatch p.1 && strContains (pyLower p.2) (pyLower identifier))

/-- Model of `get_adr(identifier)`.  `adrFiles` models the directory listing of the
`adrs/` directory (filename and content), in sorted filename order as
`sorted(adrs_path.glob(...))` iterates it. -/
def get_adr (adrFiles : List (String × String)) (identifier : String) : String :=
  match adrNumericMatches adrFiles identifier with
  | m :: _ => m.2
  | [] =>
    match adrKeywordMatches adrFiles identifier with
    | [] => "No ADR found matching '" ++ identifier ++ "'."
    | [r] => r.2
    | _ =>
      "Multiple ADRs match:\n" ++
        joinSep "\n"
          ((adrKeywordMatches adrFiles identifier).map
            (fun p => "- " ++ pyStem p.1 ++ ": " ++ adrTitle p.1 p.2))

/-- The `re.match(r"(\d+)\.", title)` group of `get_standard`'s numeric
lookup: the maximal leading digit run, provided a literal `.` follows it. -/
def sectionNumPrefix (title : String) : Option String :=
  let ds := title.data.takeWhile (fun c => c.isDigit)
  if ds.isEmpty then none
  else
    match title.data.drop ds.length with
    | '.' :: _ => some (String.mk ds)
    | _ => none

/-- Model of `get_standard(section)` over the content of `STANDARDS.md`. -/
def get_standard (standards : String) (sec : String) : String :=
  let sections := parse_sections standards 2
  match sections.find? (fun p => sectionNumPrefix p.1 == some (pyStrip sec)) with
  | some p => p.2
  | none =>
    let query := pyLower sec
    let found := sections.filter
      (fun p => strContains (pyLower p.1) query || strContains (pyLower p.2) query)
    match found with
    | [] => "No section found matching '" ++ sec ++ "'."
    | [m] => m.2
    | _ =>
      "Multiple sections match:\n" ++
        joinSep "\n" (found.map (fun p => "- " ++ p.1)) ++
        "\n\nRefine your query or use a section number."

/-- Model of `get_architecture(section)` over the content of `ARCHITECTURE.md`. -/
def get_architecture (architecture : String) (sec : String) : String :=
  let sections := parse_sections architecture 2
  let query := pyLower sec
  let found := sections.filter
    (fun p => strContains (pyLower p.1) query || strContains (pyLower p.2) query)
  match found with
  | [] => "No section found matching '" ++ sec ++ "'."
  | [m] => m.2
  | _ =>
    "Multiple sections match:\n" ++
      joinSep "\n" (found.map (fun p => "- " ++ p.1))

/-- Model of `get_template(name)`.  `templates` models the sorted recursive file
listing of the `templates/` directory: path relative to that directory,
plus content. -/
def get_template (templates : List (String × String)) (name : String) : String :=
  if pyLower name == "list" then
    "Available templates:\n" ++
      joinSep "\n" (templates.map (fun p => "- " ++ p.1))
  else
    match templates.find? (fun p => p.1 == name) with
    | some p => p.2
    | none =>
      let query := pyLower name
      let found := templates.filter
        (fun p => strContains (pyLower (pyBasename p.1)) query)
      match found with
      | [] =>
        "Template '" ++ name ++
          "' not found. Use get_template('list') to see available templates."
      | [m] => m.2
      | _ =>
        "Multiple templates match:\n" ++
          joinSep "\n" (found.map (fun p => "- " ++ p.1))

/-- One document's contribution to `search_governance`: if the whole
content contains the query (case-insensitively), the excerpt built from
the first matching line (one context line either side, clamped), tagged
with the relative path and the 1-based line number; the loop breaks after
the first matching line. -/
def searchEntry (query rel content : String) : Option String :=
  if strContains (pyLower content) (pyLower query) then
    let lines := pySplitlines content
    match lines.findIdx? (fun l => strContains (pyLower l) (pyLower query)) with
    | some i =>
      some ("**" ++ rel ++ "** (line " ++ toString (i + 1) ++ "):\n```\n" ++
        joinSep "\n" ((lines.take (min lines.length (i + 2))).drop (i - 1)) ++
        "\n```")
    | none => none
  else none

/-- The fixed search list of `search_governance`: the standards document,
the architecture document, the templates readme (each may be absent:
`path.exists()` is modelled by `Option`), then the decision records (glob
`[0-9]*.md`) in sorted filename order. -/
def searchFiles (standards architecture readme : Option String)
    (adrFiles : List (String × String)) : List (String × Option String) :=
  [("STANDARDS.md", standards), ("ARCHITECTURE.md", architecture),
   ("templates/README.md", readme)] ++
    (adrFiles.filter (fun p => digitGlobMatch p.1)).map
      (fun p => ("adrs/" ++ p.1, some p.2))

/-- The excerpt list accumulated by `search_governance`'s loop: skipping
absent files, one optional entry per document. -/
def searchResults (standards architecture readme : Option String)
    (adrFiles : List (String × String)) (query : String) : List String :=
  (searchFiles standards architecture readme adrFiles).filterMap
    (fun pc => match pc.2 with
      | none => none
      | some c => searchEntry query pc.1 c)

/-- Model of `search_governance(query)` over the modelled document set. -/
def search_governance (standards architecture readme : Option String)
    (adrFiles : List (String × String)) (query : String) : String :=
  match searchResults standards architecture readme adrFiles query with
  | [] => "No results for '" ++ query ++ "'."
  | _ => joinSep "\n\n" (searchResults standards architecture readme adrFiles query)

/-- The static tier table `_TIERS` (tier assignments from
ARCHITECTURE.md), in source order. -/
def _TIERS : List (String × Nat) :=
  [("aces", 0), ("aces-schema", 1), ("aces-sdl", 1), ("aces-provider-sdk", 2),
   ("aces-agent-sdk", 2), ("aces-runtime", 3), ("aces-experiment", 3),
   ("aces-provider-docker", 4), ("aces-cli", 5), ("aces-stdlib", 5)]

/-- Python `_TIERS.get(name)`. -/
def tiersGet (name : String) : Option Nat :=
  (_TIERS.find? (fun p => p.1 == name)).map Prod.snd

/-- Lexicographic comparison of character lists by code point, the order
Python uses to compare strings (`a <= b`). -/
def lexLeB : List Char → List Char → Bool
  | [], _ => true
  | _ :: _, [] => false
  | a :: as, b :: bs =>
    if a.toNat < b.toNat then true
    else if b.toNat < a.toNat then false
    else lexLeB as bs

/-- Python string comparison `a <= b`. -/
def strLeB (a b : String) : Bool :=
  lexLeB a.data b.data

/-- Insert a string into a list in front of the first element it is `<=`
to (insertion-sort step). -/
def insertLe (s : String) : List String → List String
  | [] => [s]
  | x :: xs => if strLeB s x then s :: x :: xs else x :: insertLe s xs

/-- Python `sorted` on strings (ascending; ties are identical strings, so
stability is immaterial). -/
def sortStrings (l : List String) : List String :=
  l.foldr insertLe []

/-- Value of `', '.join(sorted(_TIERS))`: the known repo names, sorted. -/
def knownRepos : String :=
  joinSep ", " (sortStrings (_TIERS.map Prod.fst))

/-- One violation line of `check_dependency_direction`. -/
def violationLine (rn : String) (rt : Nat) (d : String) (dt : Nat) : String :=
  "VIOLATION: " ++ rn ++ " (tier " ++ toString rt ++ ") depends on " ++ d ++
    " (tier " ++ toString dt ++ ") — higher tier dependency"

/-- One confirmation line of `check_dependency_direction`. -/
def okLine (d : String) (dt : Nat) : String :=
  "OK: " ++ d ++ " (tier " ++ toString dt ++ ")"

/-- The dependencies flagged by `check_dependency_direction`'s loop, with
their tiers: those in the tier table with a tier strictly above the
repo's; dependencies missing from the table are skipped. -/
def depViolations (rt : Nat) (deps : List String) : List (String × Nat) :=
  deps.filterMap (fun d =>
    match tiersGet d with
    | none => none
    | some dt => if rt < dt then some (d, dt) else none)

/-- The dependencies validated by `check_dependency_direction`'s loop,
with their tiers: those in the tier table with a tier at or below the
repo's; dependencies missing from the table are skipped. -/
def depValid (rt : Nat) (deps : List String) : List (String × Nat) :=
  deps.filterMap (fun d =>
    match tiersGet d with
    | none => none
    | some dt => if rt < dt then none else some (d, dt))

/-- Model of `check_dependency_direction(repo_name, dependencies)`. -/
def check_dependency_direction (repoName : String) (deps : List String) : String :=
  match tiersGet repoName with
  | none => "Unknown repo: " ++ repoName ++ ". Known repos: " ++ knownRepos
  | some rt =>
    match depViolations rt deps with
    | [] =>
      "All ACES dependencies follow the architecture DAG.\n" ++
        joinSep "\n" ((depValid rt deps).map (fun p => okLine p.1 p.2))
    | _ =>
      "Dependency direction violations found:\n" ++
        joinSep "\n" ((depViolations rt deps).map
          (fun p => violationLine repoName rt p.1 p.2))

/-- A target repository directory as `check_repo_compliance` observes it:
its base name, whether the path is a directory, the files below it
(relative path with `/` separators, mapped to content; presence in the
list models `Path.exists()`), and the governance repo's
`templates/markdownlint.yaml` content when that file exists. -/
structure RepoFS where
  name : String
  isDir : Bool
  files : List (String × String)
  templateMdlint : Option String

/-- Reading a file of the target repository (`none` models a missing
file). -/
def fsRead (r : RepoFS) (p : String) : Option String :=
  (r.files.find? (fun q => q.1 == p)).map Prod.snd

/-- Model of `(repo / fname).exists()`. -/
def fsHas (r : RepoFS) (p : String) : Bool :=
  (fsRead r p).isSome

/-- Table `_COMMON_FILES` of the source. -/
def _COMMON_FILES : List String :=
  ["LICENSE", "CHANGELOG.md", "CLAUDE.md", "SECURITY.md", ".markdownlint.yaml",
   ".pre-commit-config.yaml", ".github/pull_request_template.md",
   ".github/ISSUE_TEMPLATE/config.yml", ".github/workflows/ci.yaml"]

/-- Table lookup `_TYPE_FILES[repo_type]` for the three valid types. -/
def _TYPE_FILES (rt : String) : List String :=
  if rt == "rust" then
    ["Cargo.toml", "cargo-deny.toml", "rust-toolchain.toml", ".gitignore",
     ".mcp.json", ".github/ISSUE_TEMPLATE/bug-report.md"]
  else if rt == "python" then
    ["pyproject.toml", ".gitignore", ".mcp.json",
     ".github/ISSUE_TEMPLATE/bug-report.md"]
  else
    [".github/ISSUE_TEMPLATE/adr-proposal.md",
     ".github/ISSUE_TEMPLATE/rfc-proposal.md"]

/-- Table lookup `_CI_EXPECTED_JOB[repo_type]`. -/
def _CI_EXPECTED_JOB (rt : String) : String :=
  if rt == "governance" then "lint" else "check"

/-- Table lookup `_CI_EXPECTED_STEPS[repo_type]`. -/
def _CI_EXPECTED_STEPS (rt : String) : List String :=
  if rt == "rust" then
    ["cargo fmt", "cargo clippy", "cargo test", "cargo doc", "cargo deny"]
  else if rt == "python" then
    ["ruff check", "ruff format", "mypy", "pytest", "pip-audit"]
  else ["pre-commit run"]

/-- Required-file stage of `check_repo_compliance` (findings, passes),
each list in iteration order. -/
def requiredChecks (r : RepoFS) (rt : String) : List String × List String :=
  let req := _COMMON_FILES ++ _TYPE_FILES rt
  (req.filterMap (fun f =>
      if fsHas r f then none else some ("FAIL: " ++ f ++ " missing")),
   req.filterMap (fun f =>
      if fsHas r f then some ("PASS: " ++ f ++ " exists") else none))

/-- Repo-naming stage of `check_repo_compliance`. -/
def namingChecks (r : RepoFS) : List String × List String :=
  if strStarts r.name "aces" then
    ([], ["PASS: Repo name '" ++ r.name ++ "' follows naming convention"])
  else
    (["WARN: Repo name '" ++ r.name ++ "' does not start with 'aces-'"], [])

/-- Rust-specific stage of `check_repo_compliance`. -/
def rustChecks (r : RepoFS) (rt : String) : List String × List String :=
  if rt == "rust" then
    let cargo := match fsRead r "Cargo.toml" with
      | some content =>
        if strContains content "license = \"Apache-2.0\"" then
          (([] : List String), ["PASS: Cargo.toml specifies Apache-2.0 license"])
        else (["FAIL: Cargo.toml missing Apache-2.0 license"], [])
      | none => ([], [])
    let lib := match fsRead r "src/lib.rs" with
      | some content =>
        if strContains content "deny(missing_docs)" then
          (([] : List String), ["PASS: lib.rs has deny(missing_docs)"])
        else (["WARN: lib.rs missing #![deny(missing_docs)] (STANDARDS.md §16)"], [])
      | none => ([], [])
    (cargo.1 ++ lib.1, cargo.2 ++ lib.2)
  else ([], [])

/-- Python-specific stage of `check_repo_compliance`. -/
def pythonChecks (r : RepoFS) (rt : String) : List String × List String :=
  if rt == "python" then
    match fsRead r "pyproject.toml" with
    | some content =>
      let strictPair :=
        if strContains content "strict = true" || strContains content "strict=true"
        then (([] : List String), ["PASS: mypy strict mode enabled"])
        else (["FAIL: pyproject.toml missing mypy strict = true"], [])
      let lic :=
        if strContains content "license = \"Apache-2.0\"" then
          (([] : List String), ["PASS: pyproject.toml specifies Apache-2.0 license"])
        else (["FAIL: pyproject.toml missing Apache-2.0 license"], [])
      (strictPair.1 ++ lic.1, strictPair.2 ++ lic.2)
    | none => ([], [])
  else ([], [])

/-- Template-drift stage of `check_repo_compliance`. -/
def driftChecks (r : RepoFS) : List String × List String :=
  match fsRead r ".markdownlint.yaml", r.templateMdlint with
  | some mine, some tmpl =>
    if mine == tmpl then
      ([], ["PASS: .markdownlint.yaml matches governance template"])
    else
      (["WARN: .markdownlint.yaml differs from governance template (template drift)"],
       [])
  | _, _ => ([], [])

/-- CI-workflow stage of `check_repo_compliance`. -/
def ciChecks (r : RepoFS) (rt : String) : List String × List String :=
  match fsRead r ".github/workflows/ci.yaml" with
  | some ci =>
    let job := _CI_EXPECTED_JOB rt
    let jobPair :=
      if strContains ci ("  " ++ job ++ ":") then
        (([] : List String), ["PASS: CI job name is '" ++ job ++ "'"])
      else (["FAIL: CI workflow missing expected job name '" ++ job ++ "'"], [])
    ((jobPair.1 ++ (_CI_EXPECTED_STEPS rt).filterMap (fun st =>
        if strContains ci st then none
        else some ("FAIL: CI workflow missing expected step '" ++ st ++ "'"))),
     (jobPair.2 ++ (_CI_EXPECTED_STEPS rt).filterMap (fun st =>
        if strContains ci st then some ("PASS: CI contains '" ++ st ++ "' step")
        else none)))
  | none => ([], [])

/-- All findings (FAIL/WARN) and passes of `check_repo_compliance`, each
in emission order. -/
def complianceChecks (r : RepoFS) (rt : String) : List String × List String :=
  ((requiredChecks r rt).1 ++ (namingChecks r).1 ++ (rustChecks r rt).1 ++
     (pythonChecks r rt).1 ++ (driftChecks r).1 ++ (ciChecks r rt).1,
   (requiredChecks r rt).2 ++ (namingChecks r).2 ++ (rustChecks r rt).2 ++
     (pythonChecks r rt).2 ++ (driftChecks r).2 ++ (ciChecks r rt).2)

/-- Model of `check_repo_compliance(repo_path, repo_type)`: the `repo_type` guard
runs first, then the directory-existence guard, then the checks and the
report assembly. -/
def check_repo_compliance (r : RepoFS) (repoPath repoType : String) : String :=
  if !(repoType == "rust" || repoType == "python" || repoType == "governance") then
    "Invalid repo_type: " ++ repoType ++ ". Must be rust, python, or governance."
  else if !r.isDir then
    "Directory not found: " ++ repoPath
  else
    joinSep "\n"
      (["# Compliance Report", "Repo: " ++ r.name ++ " (" ++ repoType ++ ")", ""] ++
       (if (complianceChecks r repoType).1.isEmpty then [] else
         ["## Issues (" ++ toString (complianceChecks r repoType).1.length ++ ")"] ++
           (complianceChecks r repoType).1 ++ [""]) ++
       ["## Passed (" ++ toString (complianceChecks r repoType).2.length ++ ")"] ++
       (complianceChecks r repoType).2)

/-- The next ADR number computed by `propose_adr`: the integer value of
the first four characters of the last (sorted) `[0-9]*.md` filename, plus
one, or 1 when there are none; `none` models the `int()` call raising. -/
def nextAdrNum (adrNames : List String) : Option Nat :=
  match (sortStrings (adrNames.filter digitGlobMatch)).getLast? with
  | none => some 1
  | some last => (pyIntDigits (String.mk (last.data.take 4))).map (· + 1)

/-- The issue title built by `propose_adr`. -/
def proposeIssueTitle (title : String) : String :=
  "ADR Proposal: " ++ title

/-- The issue body built by `propose_adr` (the only place the computed
number is used; `propose_adr` writes no file, it only shells out to the
`gh` CLI with this text). -/
def proposeIssueBody (adrNames : List String)
    (title context decision : String) : Option String :=
  (nextAdrNum adrNames).map (fun n =>
    "## Proposed ADR-" ++ pad4 n ++ ": " ++ title ++
      "\n\n### Status\n\nProposed\n\n### Context\n\n" ++ context ++
      "\n\n### Decision (sketch)\n\n" ++ decision ++
      "\n\n---\n*This ADR proposal was created by the ACES Governance MCP agent.\nDiscuss here, then create the formal ADR once consensus is reached.*")

-- SCRATCH (removed in the final file)
example : pySplitlines "ab\nc\n" = ["ab", "c"] := by decide
example : pySplitlines "" = [] := by decide
example : pySplitlines "\n" = [""] := by decide
example : pyStrip "  a b \t" = "a b" := by decide
example : headingTitle 2 "## Foo " = some "Foo" := by decide
example : headingTitle 2 "### Foo" = none := by decide
example : headingTitle 2 "##  " = some "" := by decide
example : parse_sections "pre\n## A\nx\n## B\ny" =
    [("A", "## A\nx"), ("B", "## B\ny")] := by decide
example : parse_sections "## A\nx\n## A\ny" = [("A", "## A\ny")] := by decide
example : parse_sections "##  \nx\n##  \ny" = [] := by decide
example : strContains "hello world" "lo w" = true := by decide
example : pyLower "AbC" = "abc" := by decide

lemma keysOf_nil : keysOf [] = [] := rfl

lemma keysOf_cons (p : String × String) (l : List (String × String)) :
    keysOf (p :: l) = p.1 :: keysOf l := rfl

lemma keysOf_append (l₁ l₂ : List (String × String)) :
    keysOf (l₁ ++ l₂) = keysOf l₁ ++ keysOf l₂ := by
  simp [keysOf]

lemma upd_fst (p : String × String) (k v : String) :
    (if p.1 == k then (p.1, v) else p).1 = p.1 := by
  split <;> rfl

lemma keysOf_map_upd (l : List (String × String)) (k v : String) :
    keysOf (l.map (fun p => if p.1 == k then (p.1, v) else p)) = keysOf l := by
  induction l with
  | nil => rfl
  | cons p l ih =>
    rw [List.map_cons, keysOf_cons, keysOf_cons, upd_fst, ih]

lemma keysOf_dictInsert (l : List (String × String)) (kv : String × String) :
    keysOf (dictInsert l kv) =
      if kv.1 ∈ keysOf l then keysOf l else keysOf l ++ [kv.1] := by
  by_cases h : kv.1 ∈ keysOf l
  · have hany : l.any (fun p => p.1 == kv.1) = true := by
      rcases List.mem_map.1 h with ⟨p, hp, hfst⟩
      exact List.any_eq_true.2 ⟨p, hp, by simp [hfst]⟩
    rw [if_pos h]
    simp only [dictInsert, hany, if_true]
    exact keysOf_map_upd l kv.1 kv.2
  · have hany : l.any (fun p => p.1 == kv.1) = false := by
      rw [List.any_eq_false]
      intro p hp
      simp only [beq_iff_eq]
      intro hc
      exact h (List.mem_map.2 ⟨p, hp, hc⟩)
    rw [if_neg h]
    simp [dictInsert, hany, keysOf]

lemma find_map_upd_eq (l : List (String × String)) (k v : String) :
    (l.map (fun p => if p.1 == k then (p.1, v) else p)).find? (fun p => p.1 == k) =
      (l.find? (fun p => p.1 == k)).map (fun p => (p.1, v)) := by
  rw [List.find?_map]
  have hcomp : ((fun p : String × String => p.1 == k) ∘
      fun p => if p.1 == k then (p.1, v) else p) =
      (fun p : String × String => p.1 == k) := by
    funext q
    simp only [Function.comp_apply]
    rw [upd_fst]
  rw [hcomp]
  rcases hf : l.find? (fun p => p.1 == k) with _ | q
  · rw [hf]
    rfl
  · have hq : (q.1 == k) = true :=
      List.find?_some (p := fun q : String × String => q.1 == k) hf
    rw [hf]
    simp [hq]
    intro hc
    exact absurd (by simpa using hq) hc

lemma find_map_upd_ne (l : List (String × String)) (k v k' : String) (h : k' ≠ k) :
    (l.map (fun p => if p.1 == k then (p.1, v) else p)).find? (fun p => p.1 == k') =
      l.find? (fun p => p.1 == k') := by
  rw [List.find?_map]
  have hcomp : ((fun p : String × String => p.1 == k') ∘
      fun p => if p.1 == k then (p.1, v) else p) =
      (fun p : String × String => p.1 == k') := by
    funext q
    simp only [Function.comp_apply]
    rw [upd_fst]
  rw [hcomp]
  rcases hf : l.find? (fun p => p.1 == k') with _ | q
  · rw [hf]
    rfl
  · have hq : (q.1 == k') = true :=
      List.find?_some (p := fun q : String × String => q.1 == k') hf
    rw [hf]
    have hqk : ¬((q.1 == k) = true) := by
      rw [beq_iff_eq]
      rw [beq_iff_eq] at hq
      rw [hq]
      exact fun hc => h hc
    simp [hqk]
    intro hc
    exact absurd hc (by simpa using hqk)

lemma dictFind_dictInsert (l : List (String × String)) (k v k' : String) :
    dictFind (dictInsert l (k, v)) k' = if k' = k then some v else dictFind l k' := by
  by_cases hany : l.any (fun p => p.1 == k) = true
  · simp only [dictInsert, hany, if_true]
    by_cases hk : k' = k
    · subst hk
      rcases List.any_eq_true.1 hany with ⟨p, hp, hpk⟩
      simp only [dictFind, if_pos rfl]
      rw [find_map_upd_eq]
      have hex : (l.find? (fun p => p.1 == k')).isSome := by
        rw [List.find?_isSome]
        exact ⟨p, hp, hpk⟩
      rcases Option.isSome_iff_exists.1 hex with ⟨q, hq⟩
      simp [hq]
    · simp only [dictFind, if_neg hk]
      rw [find_map_upd_ne l k v k' hk]
  · have hany' : l.any (fun p => p.1 == k) = false := by
      cases hb : l.any (fun p => p.1 == k)
      · rfl
      · exact absurd hb hany
    simp only [dictInsert, hany', Bool.false_eq_true, if_false]
    simp only [dictFind, List.find?_append]
    by_cases hk : k' = k
    · subst hk
      have hnone : l.find? (fun p => p.1 == k') = none := by
        rw [List.find?_eq_none]
        intro p hp
        have := List.any_eq_false.1 hany' p hp
        simpa using this
      simp [hnone]
    · rcases hfound : l.find? (fun p => p.1 == k') with _ | q
      · have hne : ¬((k, v).1 == k') = true := by
          simp only [beq_iff_eq]
          exact fun hc => hk hc.symm
        rw [if_neg hk]
        simp [hfound, hne]
      · rw [if_neg hk]
        simp [hfound]

lemma dictFind_foldl (l : List (String × String)) :
    ∀ (acc : List (String × String)) (k : String),
      dictFind (l.foldl dictInsert acc) k = (lastBind l k).or (dictFind acc k) := by
  induction l with
  | nil => intro acc k; rfl
  | cons p l ih =>
    intro acc k
    rcases p with ⟨k0, v0⟩
    rw [List.foldl_cons, ih, dictFind_dictInsert]
    have hcons : lastBind ((k0, v0) :: l) k =
        (lastBind l k).or (if k0 == k then some v0 else none) := by
      simp only [lastBind, List.reverse_cons, List.find?_append]
      rcases hl : l.reverse.find? (fun p => p.1 == k) with _ | w
      · by_cases h0 : (k0 == k) = true <;> simp [List.find?_singleton, h0, hl]
      · simp [hl]
    rw [hcons]
    rcases hlb : lastBind l k with _ | w
    · by_cases h0 : k = k0
      · subst h0
        simp
      · have h0' : (k0 == k) = false := by
          simp only [beq_eq_false_iff_ne, ne_eq]
          exact fun hc => h0 hc.symm
        simp [h0, h0']
    · simp

lemma keysOf_foldl_nodup (l : List (String × String)) :
    ∀ acc, (keysOf acc).Nodup → (keysOf (l.foldl dictInsert acc)).Nodup := by
  induction l with
  | nil => intro acc h; exact h
  | cons kv l ih =>
    intro acc h
    rw [List.foldl_cons]
    apply ih
    rw [keysOf_dictInsert]
    by_cases hm : kv.1 ∈ keysOf acc
    · rw [if_pos hm]; exact h
    · rw [if_neg hm]
      simp [List.nodup_append, h, hm]

lemma mem_keysOf_dictInsert_of_mem (acc : List (String × String))
    (kv : String × String) (k : String) (h : k ∈ keysOf acc) :
    k ∈ keysOf (dictInsert acc kv) := by
  rw [keysOf_dictInsert]
  by_cases hm : kv.1 ∈ keysOf acc
  · rw [if_pos hm]; exact h
  · rw [if_neg hm]; exact List.mem_append_left _ h

lemma mem_keysOf_dictInsert_self (acc : List (String × String))
    (kv : String × String) : kv.1 ∈ keysOf (dictInsert acc kv) := by
  rw [keysOf_dictInsert]
  by_cases hm : kv.1 ∈ keysOf acc
  · rw [if_pos hm]; exact hm
  · rw [if_neg hm]; exact List.mem_append_right _ (List.mem_singleton.2 rfl)

lemma mem_keysOf_foldl_of_acc (l : List (String × String)) :
    ∀ acc k, k ∈ keysOf acc → k ∈ keysOf (l.foldl dictInsert acc) := by
  induction l with
  | nil => intro acc k h; exact h
  | cons kv l ih =>
    intro acc k h
    rw [List.foldl_cons]
    exact ih _ _ (mem_keysOf_dictInsert_of_mem acc kv k h)

lemma mem_keysOf_foldl (l : List (String × String)) :
    ∀ acc k, k ∈ keysOf l → k ∈ keysOf (l.foldl dictInsert acc) := by
  induction l with
  | nil => intro acc k h; exact absurd h (by simp [keysOf])
  | cons kv l ih =>
    intro acc k h
    rw [keysOf_cons] at h
    rw [List.foldl_cons]
    rcases List.mem_cons.1 h with h | h
    · subst h
      exact mem_keysOf_foldl_of_acc l _ _ (mem_keysOf_dictInsert_self acc kv)
    · exact ih _ _ h

lemma foldl_dictInsert_of_nodup (l : List (String × String)) :
    ∀ acc, (keysOf acc ++ keysOf l).Nodup → l.foldl dictInsert acc = acc ++ l := by
  induction l with
  | nil => intro acc _; simp
  | cons kv l ih =>
    intro acc h
    have hdisj : (keysOf acc).Disjoint (keysOf (kv :: l)) :=
      (List.nodup_append.1 h).2.2
    have hnotin : kv.1 ∉ keysOf acc := by
      intro hc
      exact hdisj hc (by rw [keysOf_cons]; exact List.mem_cons_self _ _)
    have hany : acc.any (fun p => p.1 == kv.1) = false := by
      rw [List.any_eq_false]
      intro p hp
      simp only [beq_iff_eq]
      intro hc
      exact hnotin (List.mem_map.2 ⟨p, hp, hc⟩)
    have hins : dictInsert acc kv = acc ++ [kv] := by
      simp [dictInsert, hany]
    rw [List.foldl_cons, hins, ih (acc ++ [kv]) ?_, List.append_assoc,
      List.singleton_append]
    rw [keysOf_append, List.append_assoc]
    have hsk : keysOf [kv] = [kv.1] := rfl
    rw [hsk, List.singleton_append]
    show (keysOf acc ++ keysOf (kv :: l)).Nodup
    exact h

lemma parseAux_eq (lvl : Nat) (lines : List String) :
    ∀ (t0 : String) (ls0 : List String) (acc : List (String × String)),
      parseAux lvl t0 ls0 acc lines =
        ((if t0 = "" then [] else
            [(t0, pyStrip (joinSep "\n" (ls0 ++ (segsAux lvl lines).1)))]) ++
          ((segsAux lvl lines).2).filterMap renderSeg).foldl dictInsert acc := by
  induction lines with
  | nil =>
    intro t0 ls0 acc
    by_cases h : t0 = "" <;> simp [parseAux, segsAux, h]
  | cons l rest ih =>
    intro t0 ls0 acc
    rcases hh : headingTitle lvl l with _ | t
    · simp only [parseAux, hh]
      rw [ih]
      simp only [segsAux, hh]
      by_cases h : t0 = "" <;> simp [h, List.append_assoc]
    · simp only [parseAux, hh]
      rw [ih]
      simp only [segsAux, hh]
      by_cases h : t0 = ""
      · by_cases ht : t = "" <;>
          simp [h, ht, renderSeg, List.filterMap_cons]
      · by_cases ht : t = "" <;>
          simp [h, ht, renderSeg, List.filterMap_cons]

/-- Refinement: `_parse_sections` produces exactly the titled segments of the document,
collapsed by Python-dict insertion (last write wins for duplicate titles). -/
theorem parse_sections_spec (content : String) (lvl : Nat) :
    parse_sections content lvl = (specSections content lvl).foldl dictInsert [] := by
  unfold parse_sections specSections
  rw [parseAux_eq]
  simp

lemma segs_map_fst (lvl : Nat) (lines : List String) :
    ((segsAux lvl lines).2).map Prod.fst = lines.filterMap (headingTitle lvl) := by
  induction lines with
  | nil => rfl
  | cons l rest ih =>
    rcases hh : headingTitle lvl l with _ | t <;>
      simp [segsAux, hh, ih]

lemma filterMap_eq_map_of_forall {α β : Type} (f : α → Option β) (g : α → β) :
    ∀ l : List α, (∀ a ∈ l, f a = some (g a)) → l.filterMap f = l.map g := by
  intro l
  induction l with
  | nil => intro _; rfl
  | cons a l ih =>
    intro h
    rw [List.filterMap_cons, h a (List.mem_cons_self _ _), List.map_cons,
      ih (fun a ha => h a (List.mem_cons_of_mem _ ha))]

lemma countP_fst_eq_count_keys (l : List (String × String)) (t : String) :
    l.countP (fun p => p.1 == t) = (keysOf l).count t := by
  simp only [keysOf, List.count, List.countP_map]
  rfl

/-- C1 claim as stated, evaluated at a refuting input: the document
`"##  \nx\n##  \ny"` has two level-2 heading lines with the same
(whitespace-only, hence stripped-to-empty) title, yet `_parse_sections`
produces no entry at all for that title (Python's `if current_title:`
treats the empty title as falsy and discards both sections), so the title
is not "present exactly once" in the result. -/
theorem c1_counterexample :
    (headingTitles "##  \nx\n##  \ny" 2).count "" = 2 ∧
    (parse_sections "##  \nx\n##  \ny" 2).countP (fun p => p.1 == "") = 0 := by
  constructor
  · decide
  · decide

/-- C1 (amended): for a document with two or more same-titled level-2
headings whose shared stripped title is non-empty, the parse result binds
that title exactly once, to the rendered body (heading line through the
line before the next boundary, whitespace-trimmed) of the last
occurrence in source order; no entry is sourced from an earlier
occurrence. -/
theorem c1_last_write_wins (content t : String) (ht : t ≠ "")
    (hc : 2 ≤ (headingTitles content 2).count t) :
    (parse_sections content 2).countP (fun p => p.1 == t) = 1 ∧
    ∃ seg, ((segsAux 2 (pySplitlines content)).2).reverse.find?
        (fun s => s.1 == t) = some seg ∧
      dictFind (parse_sections content 2) t =
        some (pyStrip (joinSep "\n" seg.2)) := by
  have hmemt : t ∈ ((segsAux 2 (pySplitlines content)).2).map Prod.fst := by
    rw [segs_map_fst]
    have : 0 < (headingTitles content 2).count t := by omega
    exact List.count_pos_iff.1 this
  rcases List.mem_map.1 hmemt with ⟨seg0, hseg0, hfst0⟩
  have hspec : parse_sections content 2 =
      (specSections content 2).foldl dictInsert [] := parse_sections_spec content 2
  have hmemk : t ∈ keysOf (specSections content 2) := by
    unfold specSections keysOf
    refine List.mem_map.2 ⟨(t, pyStrip (joinSep "\n" seg0.2)), ?_, rfl⟩
    refine List.mem_filterMap.2 ⟨seg0, hseg0, ?_⟩
    rw [renderSeg, if_neg (by rw [hfst0]; exact ht), hfst0]
  constructor
  · rw [countP_fst_eq_count_keys, hspec]
    refine List.count_eq_one_of_mem ?_ ?_
    · exact keysOf_foldl_nodup _ _ (by simp [keysOf])
    · exact mem_keysOf_foldl _ _ _ hmemk
  · have hfind : (((segsAux 2 (pySplitlines content)).2).reverse.find?
        (fun s => s.1 == t)).isSome := by
      rw [List.find?_isSome]
      exact ⟨seg0, List.mem_reverse.2 hseg0, by rw [hfst0]; exact beq_self_eq_true t⟩
    rcases Option.isSome_iff_exists.1 hfind with ⟨seg, hseg⟩
    refine ⟨seg, hseg, ?_⟩
    have hsegt : seg.1 = t := by
      have := List.find?_some (p := fun s : String × List String => s.1 == t) hseg
      simpa using this
    rw [hspec, dictFind_foldl]
    have hlast : lastBind (specSections content 2) t =
        some (pyStrip (joinSep "\n" seg.2)) := by
      unfold lastBind specSections
      rw [← List.filterMap_reverse, List.find?_filterMap]
      have hpred : (fun s : String × List String =>
          (renderSeg s).any (fun p => p.1 == t)) = (fun s => s.1 == t) := by
        funext s
        rw [renderSeg]
        by_cases hs : s.1 = ""
        · rw [if_pos hs, hs]
          simp only [Option.any_none]
          have : ¬("" == t) = true := by
            rw [beq_iff_eq]
            exact fun hcc => ht hcc.symm
          simp [this]
        · rw [if_neg hs]
          simp
      rw [hpred, hseg]
      have : renderSeg seg = some (seg.1, pyStrip (joinSep "\n" seg.2)) := by
        rw [renderSeg, if_neg (by rw [hsegt]; exact ht)]
      simp [this]
    rw [hlast]
    rfl

/-- C8 claim as stated, evaluated at a refuting input: the document
`"##  \nx"` has one level-2 heading line (with pairwise-distinct titles,
trivially), but the parse result has zero entries rather than one entry
per heading: the whitespace-only title strips to the empty string and the
section is discarded. -/
theorem c8_counterexample :
    (headingTitles "##  \nx" 2).length = 1 ∧ parse_sections "##  \nx" 2 = [] := by
  constructor
  · decide
  · decide

/-- C8 (amended): for a document whose level-2 heading titles are
pairwise distinct and non-empty after stripping, `_parse_sections`
returns exactly one entry per heading line, in source order; each entry's
body is the whitespace-trimmed join of the lines from its own heading
line up to (excluding) the next level-2 boundary; lines before the first
boundary are in no entry; and a level-3 heading line is never a boundary
of the level-2 scan. -/
theorem c8_distinct_titles (content : String)
    (hne : ¬ "" ∈ headingTitles content 2)
    (hnd : (headingTitles content 2).Nodup) :
    parse_sections content 2 =
      ((segsAux 2 (pySplitlines content)).2).map
        (fun seg => (seg.1, pyStrip (joinSep "\n" seg.2))) ∧
    keysOf (parse_sections content 2) = headingTitles content 2 ∧
    (∀ line : String, pfxB (hashMarks 3) line.data → headingTitle 2 line = none) := by
  have hall : ∀ seg ∈ (segsAux 2 (pySplitlines content)).2,
      renderSeg seg = some (seg.1, pyStrip (joinSep "\n" seg.2)) := by
    intro seg hseg
    have hfst : seg.1 ∈ headingTitles content 2 := by
      rw [headingTitles, ← segs_map_fst]
      exact List.mem_map.2 ⟨seg, hseg, rfl⟩
    rw [renderSeg, if_neg (fun hc : seg.1 = "" => hne (hc ▸ hfst))]
  have hmap : specSections content 2 =
      ((segsAux 2 (pySplitlines content)).2).map
        (fun seg => (seg.1, pyStrip (joinSep "\n" seg.2))) := by
    unfold specSections
    exact filterMap_eq_map_of_forall _ _ _ hall
  have hkeys : keysOf (specSections content 2) = headingTitles content 2 := by
    rw [hmap]
    unfold keysOf
    rw [List.map_map]
    have : (Prod.fst ∘ fun seg : String × List String =>
        (seg.1, pyStrip (joinSep "\n" seg.2))) = Prod.fst := rfl
    rw [this, segs_map_fst]
    rfl
  have hfold : parse_sections content 2 = specSections content 2 := by
    rw [parse_sections_spec]
    have := foldl_dictInsert_of_nodup (specSections content 2) []
    rw [this]
    · rfl
    · rw [keysOf_nil, List.nil_append, hkeys]
      exact hnd
  refine ⟨by rw [hfold, hmap], by rw [hfold, hkeys], ?_⟩
  intro line hpre
  rcases hd : line.data with _ | ⟨c1, d1⟩
  · rw [hd] at hpre; exact absurd hpre (by simp [hashMarks, pfxB])
  rcases hd1 : d1 with _ | ⟨c2, d2⟩
  · rw [hd, hd1] at hpre; exact absurd hpre (by simp [hashMarks, pfxB])
  rcases hd2 : d2 with _ | ⟨c3, d3⟩
  · rw [hd, hd1, hd2] at hpre; exact absurd hpre (by simp [hashMarks, pfxB])
  rw [hd, hd1, hd2] at hpre
  have hc : c1 = '#' ∧ c2 = '#' ∧ c3 = '#' := by
    simp only [hashMarks, List.replicate, pfxB, Bool.and_eq_true, decide_eq_true_eq] at hpre
    exact ⟨hpre.1.symm, hpre.2.1.symm, hpre.2.2.1.symm⟩
  rw [headingTitle, if_neg]
  intro hcontra
  rw [hd, hd1, hd2, hc.1, hc.2.1, hc.2.2] at hcontra
  simp [hashMarks, List.replicate, pfxB] at hcontra


lemma pfxB_append (l r : List Char) : pfxB l (l ++ r) = true := by
  induction l with
  | nil => rfl
  | cons a as ih => simp [pfxB, ih]

lemma strStarts_append (p rest : String) : strStarts (p ++ rest) p = true := by
  unfold strStarts
  rw [String.data_append]
  exact pfxB_append p.data rest.data

/-- C7 claim as stated, evaluated at a refuting input: `get_standard`
compares the digit prefix of a section title with the *verbatim* stripped
input string, not with its integer value: on a standards document whose
only section is `## 15. Foo`, the input `"15"` returns the section body
but the equal-valued zero-padded input `"015"` falls through to the
keyword search and returns a not-found message instead of the body. -/
theorem c7_counterexample :
    sectionNumPrefix "15. Foo" = some "15" ∧
    get_standard "## 15. Foo\nbar" "15" = "## 15. Foo\nbar" ∧
    get_standard "## 15. Foo\nbar" "015" = "No section found matching '015'." := by
  refine ⟨by decide, by decide, by decide⟩

/-- C7 (amended): for every input string and standards document, if some
level-2 section's title carries a leading `<digits>.` prefix whose digit
string equals the whitespace-stripped input verbatim, then `get_standard`
returns the body of the first such section, before and instead of any
keyword search; zero-padding differences do not match. -/
theorem c7_section_number_match (standards sec t b : String)
    (h : (parse_sections standards 2).find?
        (fun p => sectionNumPrefix p.1 == some (pyStrip sec)) = some (t, b)) :
    get_standard standards sec = b := by
  unfold get_standard
  simp only [h]

/-- Witness for `c7_section_number_match` (a whitespace-surrounded input
still matches, because the input is stripped before the comparison). -/
theorem c7_witness :
    (parse_sections "## 15. Foo\nbar" 2).find?
        (fun p => sectionNumPrefix p.1 == some (pyStrip " 15 ")) =
      some ("15. Foo", "## 15. Foo\nbar") ∧
    get_standard "## 15. Foo\nbar" " 15 " = "## 15. Foo\nbar" :=
  ⟨by decide, c7_section_number_match "## 15. Foo\nbar" " 15 " "15. Foo"
    "## 15. Foo\nbar" (by decide)⟩


/-- C2: `check_dependency_direction` flags a dependency exactly when it
is in the tier table with a tier strictly above the repo's; table-known
dependencies at or below the repo's tier are validated; dependencies
absent from the table appear in neither list (silently skipped); with at
least one violation the result is exactly the violation list (each line
naming both tiers), with none it is the confirmation listing each
validated dependency with its tier; an unknown repo name yields the
unknown-repo message listing all known names, with no validation. -/
theorem c2_dependency_direction (rn : String) (deps : List String) :
    (tiersGet rn = none →
      check_dependency_direction rn deps =
        "Unknown repo: " ++ rn ++ ". Known repos: " ++ knownRepos) ∧
    (∀ rt, tiersGet rn = some rt →
      (∀ d dt, (d, dt) ∈ depViolations rt deps ↔
        d ∈ deps ∧ tiersGet d = some dt ∧ rt < dt) ∧
      (∀ d dt, (d, dt) ∈ depValid rt deps ↔
        d ∈ deps ∧ tiersGet d = some dt ∧ dt ≤ rt) ∧
      (∀ d, tiersGet d = none → ∀ dt,
        (d, dt) ∉ depViolations rt deps ∧ (d, dt) ∉ depValid rt deps) ∧
      (depViolations rt deps ≠ [] →
        check_dependency_direction rn deps =
          "Dependency direction violations found:\n" ++
            joinSep "\n" ((depViolations rt deps).map
              (fun p => violationLine rn rt p.1 p.2))) ∧
      (depViolations rt deps = [] →
        check_dependency_direction rn deps =
          "All ACES dependencies follow the architecture DAG.\n" ++
            joinSep "\n" ((depValid rt deps).map (fun p => okLine p.1 p.2)))) := by
  constructor
  · intro h
    unfold check_dependency_direction
    rw [h]
  · intro rt hrt
    refine ⟨?_, ?_, ?_, ?_, ?_⟩
    · intro d dt
      constructor
      · intro hm
        rcases List.mem_filterMap.1 hm with ⟨d', hd', hf⟩
        rcases hg : tiersGet d' with _ | dt'
        · simp only [hg] at hf; exact absurd hf (by simp)
        · simp only [hg] at hf
          by_cases hlt : rt < dt'
          · rw [if_pos hlt] at hf
            simp only [Option.some.injEq, Prod.mk.injEq] at hf
            obtain ⟨hd, hdt⟩ := hf
            subst hd; subst hdt
            exact ⟨hd', hg, hlt⟩
          · rw [if_neg hlt] at hf; exact absurd hf (by simp)
      · rintro ⟨hd, hg, hlt⟩
        exact List.mem_filterMap.2 ⟨d, hd, by rw [hg]; simp [hlt]⟩
    · intro d dt
      constructor
      · intro hm
        rcases List.mem_filterMap.1 hm with ⟨d', hd', hf⟩
        rcases hg : tiersGet d' with _ | dt'
        · simp only [hg] at hf; exact absurd hf (by simp)
        · simp only [hg] at hf
          by_cases hlt : rt < dt'
          · rw [if_pos hlt] at hf; exact absurd hf (by simp)
          · rw [if_neg hlt] at hf
            simp only [Option.some.injEq, Prod.mk.injEq] at hf
            obtain ⟨hd, hdt⟩ := hf
            subst hd; subst hdt
            exact ⟨hd', hg, Nat.le_of_not_lt hlt⟩
      · rintro ⟨hd, hg, hle⟩
        exact List.mem_filterMap.2 ⟨d, hd, by rw [hg]; simp [Nat.not_lt_of_le hle]⟩
    · intro d hg dt
      constructor
      · intro hm
        rcases List.mem_filterMap.1 hm with ⟨d', hd', hf⟩
        rcases hg' : tiersGet d' with _ | dt'
        · simp only [hg'] at hf; exact absurd hf (by simp)
        · simp only [hg'] at hf
          have hd : d' = d := by
            by_cases hlt : rt < dt'
            · rw [if_pos hlt] at hf
              exact congrArg Prod.fst (Option.some_inj.1 hf)
            · rw [if_neg hlt] at hf; exact absurd hf (by simp)
          rw [hd] at hg'
          rw [hg'] at hg
          exact absurd hg (by simp)
      · intro hm
        rcases List.mem_filterMap.1 hm with ⟨d', hd', hf⟩
        rcases hg' : tiersGet d' with _ | dt'
        · simp only [hg'] at hf; exact absurd hf (by simp)
        · simp only [hg'] at hf
          have hd : d' = d := by
            by_cases hlt : rt < dt'
            · rw [if_pos hlt] at hf; exact absurd hf (by simp)
            · rw [if_neg hlt] at hf
              exact congrArg Prod.fst (Option.some_inj.1 hf)
          rw [hd] at hg'
          rw [hg'] at hg
          exact absurd hg (by simp)
    · intro hne
      unfold check_dependency_direction
      rcases hv : depViolations rt deps with _ | ⟨p, l⟩
      · exact absurd hv hne
      · simp only [hrt, hv]
    · intro hv
      unfold check_dependency_direction
      simp only [hrt, hv]

/-- Witness for `c2_dependency_direction`: a tier-1 repo depending on a
tier-3 repo is a violation; an unknown repo name yields the unknown-repo
message. -/
theorem c2_witness :
    tiersGet "aces-schema" = some 1 ∧
    check_dependency_direction "aces-schema" ["aces-runtime"] =
      "Dependency direction violations found:\nVIOLATION: aces-schema (tier 1) depends on aces-runtime (tier 3) — higher tier dependency" ∧
    check_dependency_direction "zzz" [] =
      "Unknown repo: zzz. Known repos: aces, aces-agent-sdk, aces-cli, aces-experiment, aces-provider-docker, aces-provider-sdk, aces-runtime, aces-schema, aces-sdl, aces-stdlib" := by
  refine ⟨by decide, ?_, ?_⟩
  · rw [((c2_dependency_direction "aces-schema" ["aces-runtime"]).2 1
      (by decide)).2.2.2.1 (by decide)]
    decide
  · rw [(c2_dependency_direction "zzz" []).1 (by decide)]
    decide


lemma pfxB_append_of_pfxB (q : List Char) :
    ∀ (p r : List Char), pfxB q p = true → pfxB q (p ++ r) = true := by
  induction q with
  | nil => intro p r _; rfl
  | cons a as ih =>
    intro p r h
    cases p with
    | nil => exact absurd h (by simp [pfxB])
    | cons b bs =>
      simp only [pfxB, Bool.and_eq_true] at h
      simp only [List.cons_append, pfxB, Bool.and_eq_true]
      exact ⟨h.1, ih bs r h.2⟩

lemma strStarts_append_left (s t p : String) (h : strStarts s p = true) :
    strStarts (s ++ t) p = true := by
  unfold strStarts at h ⊢
  rw [String.data_append]
  exact pfxB_append_of_pfxB p.data s.data t.data h

lemma requiredChecks_fst (r : RepoFS) (rt : String) :
    ∀ f ∈ (requiredChecks r rt).1, strStarts f "FAIL: " = true := by
  intro f hf
  unfold requiredChecks at hf
  simp only at hf
  rcases List.mem_filterMap.1 hf with ⟨g, _, hsome⟩
  by_cases h : fsHas r g = true
  · rw [if_pos h] at hsome; exact absurd hsome (by simp)
  · rw [if_neg h] at hsome
    simp only [Option.some.injEq] at hsome
    rw [← hsome]
    exact strStarts_append_left _ _ _ (strStarts_append "FAIL: " g)

lemma requiredChecks_snd (r : RepoFS) (rt : String) :
    ∀ p ∈ (requiredChecks r rt).2, strStarts p "PASS: " = true := by
  intro p hp
  unfold requiredChecks at hp
  simp only at hp
  rcases List.mem_filterMap.1 hp with ⟨g, _, hsome⟩
  by_cases h : fsHas r g = true
  · rw [if_pos h] at hsome
    simp only [Option.some.injEq] at hsome
    rw [← hsome]
    exact strStarts_append_left _ _ _ (strStarts_append "PASS: " g)
  · rw [if_neg h] at hsome; exact absurd hsome (by simp)

lemma namingChecks_fst (r : RepoFS) :
    ∀ f ∈ (namingChecks r).1, strStarts f "WARN: " = true := by
  intro f hf
  unfold namingChecks at hf
  by_cases h : strStarts r.name "aces" = true
  · rw [if_pos h] at hf; exact absurd hf (by simp)
  · rw [if_neg h] at hf
    simp only [List.mem_singleton] at hf
    rw [hf]
    exact strStarts_append_left _ _ _
      (strStarts_append_left _ _ _ (by decide))

lemma namingChecks_snd (r : RepoFS) :
    ∀ p ∈ (namingChecks r).2, strStarts p "PASS: " = true := by
  intro p hp
  unfold namingChecks at hp
  by_cases h : strStarts r.name "aces" = true
  · rw [if_pos h] at hp
    simp only [List.mem_singleton] at hp
    rw [hp]
    exact strStarts_append_left _ _ _
      (strStarts_append_left _ _ _ (by decide))
  · rw [if_neg h] at hp; exact absurd hp (by simp)

lemma rustChecks_fst (r : RepoFS) (rt : String) :
    ∀ f ∈ (rustChecks r rt).1,
      strStarts f "FAIL: " = true ∨ strStarts f "WARN: " = true := by
  intro f hf
  unfold rustChecks at hf
  by_cases hrt : (rt == "rust") = true
  · rw [if_pos hrt] at hf
    simp only at hf
    rcases List.mem_append.1 hf with hc | hl
    · rcases h1 : fsRead r "Cargo.toml" with _ | c <;> simp only [h1] at hc
      · exact absurd hc (by simp)
      · by_cases h2 : strContains c "license = \"Apache-2.0\"" = true
        · rw [if_pos h2] at hc; exact absurd hc (by simp)
        · rw [if_neg h2] at hc
          simp only [List.mem_singleton] at hc
          rw [hc]; left; decide
    · rcases h1 : fsRead r "src/lib.rs" with _ | c <;> simp only [h1] at hl
      · exact absurd hl (by simp)
      · by_cases h2 : strContains c "deny(missing_docs)" = true
        · rw [if_pos h2] at hl; exact absurd hl (by simp)
        · rw [if_neg h2] at hl
          simp only [List.mem_singleton] at hl
          rw [hl]; right; decide
  · rw [if_neg hrt] at hf; exact absurd hf (by simp)

lemma rustChecks_snd (r : RepoFS) (rt : String) :
    ∀ p ∈ (rustChecks r rt).2, strStarts p "PASS: " = true := by
  intro p hp
  unfold rustChecks at hp
  by_cases hrt : (rt == "rust") = true
  · rw [if_pos hrt] at hp
    simp only at hp
    rcases List.mem_append.1 hp with hc | hl
    · rcases h1 : fsRead r "Cargo.toml" with _ | c <;> simp only [h1] at hc
      · exact absurd hc (by simp)
      · by_cases h2 : strContains c "license = \"Apache-2.0\"" = true
        · rw [if_pos h2] at hc
          simp only [List.mem_singleton] at hc
          rw [hc]; decide
        · rw [if_neg h2] at hc; exact absurd hc (by simp)
    · rcases h1 : fsRead r "src/lib.rs" with _ | c <;> simp only [h1] at hl
      · exact absurd hl (by simp)
      · by_cases h2 : strContains c "deny(missing_docs)" = true
        · rw [if_pos h2] at hl
          simp only [List.mem_singleton] at hl
          rw [hl]; decide
        · rw [if_neg h2] at hl; exact absurd hl (by simp)
  · rw [if_neg hrt] at hp; exact absurd hp (by simp)

lemma pythonChecks_fst (r : RepoFS) (rt : String) :
    ∀ f ∈ (pythonChecks r rt).1, strStarts f "FAIL: " = true := by
  intro f hf
  unfold pythonChecks at hf
  by_cases hrt : (rt == "python") = true
  · rw [if_pos hrt] at hf
    rcases h1 : fsRead r "pyproject.toml" with _ | c <;> simp only [h1] at hf
    · exact absurd hf (by simp)
    · rcases List.mem_append.1 hf with hs | hl
      · by_cases h2 : (strContains c "strict = true" || strContains c "strict=true") = true
        · rw [if_pos h2] at hs; exact absurd hs (by simp)
        · rw [if_neg h2] at hs
          simp only [List.mem_singleton] at hs
          rw [hs]; decide
      · by_cases h2 : strContains c "license = \"Apache-2.0\"" = true
        · rw [if_pos h2] at hl; exact absurd hl (by simp)
        · rw [if_neg h2] at hl
          simp only [List.mem_singleton] at hl
          rw [hl]; decide
  · rw [if_neg hrt] at hf; exact absurd hf (by simp)

lemma pythonChecks_snd (r : RepoFS) (rt : String) :
    ∀ p ∈ (pythonChecks r rt).2, strStarts p "PASS: " = true := by
  intro p hp
  unfold pythonChecks at hp
  by_cases hrt : (rt == "python") = true
  · rw [if_pos hrt] at hp
    rcases h1 : fsRead r "pyproject.toml" with _ | c <;> simp only [h1] at hp
    · exact absurd hp (by simp)
    · rcases List.mem_append.1 hp with hs | hl
      · by_cases h2 : (strContains c "strict = true" || strContains c "strict=true") = true
        · rw [if_pos h2] at hs
          simp only [List.mem_singleton] at hs
          rw [hs]; decide
        · rw [if_neg h2] at hs; exact absurd hs (by simp)
      · by_cases h2 : strContains c "license = \"Apache-2.0\"" = true
        · rw [if_pos h2] at hl
          simp only [List.mem_singleton] at hl
          rw [hl]; decide
        · rw [if_neg h2] at hl; exact absurd hl (by simp)
  · rw [if_neg hrt] at hp; exact absurd hp (by simp)

lemma driftChecks_fst (r : RepoFS) :
    ∀ f ∈ (driftChecks r).1, strStarts f "WARN: " = true := by
  intro f hf
  unfold driftChecks at hf
  rcases h1 : fsRead r ".markdownlint.yaml" with _ | mine <;> simp only [h1] at hf
  · exact absurd hf (by simp)
  · rcases h2 : r.templateMdlint with _ | tmpl <;> simp only [h2] at hf
    · exact absurd hf (by simp)
    · by_cases h3 : (mine == tmpl) = true
      · rw [if_pos h3] at hf; exact absurd hf (by simp)
      · rw [if_neg h3] at hf
        simp only [List.mem_singleton] at hf
        rw [hf]; decide

lemma driftChecks_snd (r : RepoFS) :
    ∀ p ∈ (driftChecks r).2, strStarts p "PASS: " = true := by
  intro p hp
  unfold driftChecks at hp
  rcases h1 : fsRead r ".markdownlint.yaml" with _ | mine <;> simp only [h1] at hp
  · exact absurd hp (by simp)
  · rcases h2 : r.templateMdlint with _ | tmpl <;> simp only [h2] at hp
    · exact absurd hp (by simp)
    · by_cases h3 : (mine == tmpl) = true
      · rw [if_pos h3] at hp
        simp only [List.mem_singleton] at hp
        rw [hp]; decide
      · rw [if_neg h3] at hp; exact absurd hp (by simp)

lemma ciChecks_fst (r : RepoFS) (rt : String) :
    ∀ f ∈ (ciChecks r rt).1, strStarts f "FAIL: " = true := by
  intro f hf
  unfold ciChecks at hf
  rcases h1 : fsRead r ".github/workflows/ci.yaml" with _ | ci <;> simp only [h1] at hf
  · exact absurd hf (by simp)
  · rcases List.mem_append.1 hf with hj | hs
    · by_cases h2 : strContains ci ("  " ++ _CI_EXPECTED_JOB rt ++ ":") = true
      · rw [if_pos h2] at hj; exact absurd hj (by simp)
      · rw [if_neg h2] at hj
        simp only [List.mem_singleton] at hj
        rw [hj]
        exact strStarts_append_left _ _ _
          (strStarts_append_left _ _ _ (by decide))
    · rcases List.mem_filterMap.1 hs with ⟨st, _, hsome⟩
      by_cases h2 : strContains ci st = true
      · rw [if_pos h2] at hsome; exact absurd hsome (by simp)
      · rw [if_neg h2] at hsome
        simp only [Option.some.injEq] at hsome
        rw [← hsome]
        exact strStarts_append_left _ _ _
          (strStarts_append_left _ _ _ (by decide))

lemma ciChecks_snd (r : RepoFS) (rt : String) :
    ∀ p ∈ (ciChecks r rt).2, strStarts p "PASS: " = true := by
  intro p hp
  unfold ciChecks at hp
  rcases h1 : fsRead r ".github/workflows/ci.yaml" with _ | ci <;> simp only [h1] at hp
  · exact absurd hp (by simp)
  · rcases List.mem_append.1 hp with hj | hs
    · by_cases h2 : strContains ci ("  " ++ _CI_EXPECTED_JOB rt ++ ":") = true
      · rw [if_pos h2] at hj
        simp only [List.mem_singleton] at hj
        rw [hj]
        exact strStarts_append_left _ _ _
          (strStarts_append_left _ _ _ (by decide))
      · rw [if_neg h2] at hj; exact absurd hj (by simp)
    · rcases List.mem_filterMap.1 hs with ⟨st, _, hsome⟩
      by_cases h2 : strContains ci st = true
      · rw [if_pos h2] at hsome
        simp only [Option.some.injEq] at hsome
        rw [← hsome]
        exact strStarts_append_left _ _ _
          (strStarts_append_left _ _ _ (by decide))
      · rw [if_neg h2] at hsome; exact absurd hsome (by simp)


/-- C4: for an existing target directory and a valid project type, the
compliance report is the header followed by, when any findings exist, an
"Issues" section carrying the finding count and every FAIL/WARN line,
then a "Passed" section carrying the pass count and every PASS line;
with zero findings the "Issues" heading is absent and only the "Passed"
section appears.  Every finding line starts with `FAIL: ` or `WARN: `,
every pass line with `PASS: `. -/
theorem c4_report_layout (r : RepoFS) (repoPath repoType : String)
    (hty : repoType = "rust" ∨ repoType = "python" ∨ repoType = "governance")
    (hdir : r.isDir = true) :
    check_repo_compliance r repoPath repoType =
      joinSep "\n"
        (["# Compliance Report", "Repo: " ++ r.name ++ " (" ++ repoType ++ ")", ""] ++
         (if (complianceChecks r repoType).1.isEmpty then [] else
           ["## Issues (" ++ toString (complianceChecks r repoType).1.length ++ ")"] ++
             (complianceChecks r repoType).1 ++ [""]) ++
         ["## Passed (" ++ toString (complianceChecks r repoType).2.length ++ ")"] ++
         (complianceChecks r repoType).2) ∧
    ((complianceChecks r repoType).1 = [] →
      check_repo_compliance r repoPath repoType =
        joinSep "\n"
          (["# Compliance Report", "Repo: " ++ r.name ++ " (" ++ repoType ++ ")", ""] ++
           ["## Passed (" ++ toString (complianceChecks r repoType).2.length ++ ")"] ++
           (complianceChecks r repoType).2)) ∧
    (∀ f ∈ (complianceChecks r repoType).1,
      strStarts f "FAIL: " = true ∨ strStarts f "WARN: " = true) ∧
    (∀ p ∈ (complianceChecks r repoType).2, strStarts p "PASS: " = true) := by
  have hguard : (repoType == "rust" || repoType == "python" ||
      repoType == "governance") = true := by
    rcases hty with h | h | h <;> simp [h]
  have hmain : check_repo_compliance r repoPath repoType =
      joinSep "\n"
        (["# Compliance Report", "Repo: " ++ r.name ++ " (" ++ repoType ++ ")", ""] ++
         (if (complianceChecks r repoType).1.isEmpty then [] else
           ["## Issues (" ++ toString (complianceChecks r repoType).1.length ++ ")"] ++
             (complianceChecks r repoType).1 ++ [""]) ++
         ["## Passed (" ++ toString (complianceChecks r repoType).2.length ++ ")"] ++
         (complianceChecks r repoType).2) := by
    unfold check_repo_compliance
    rw [hguard, hdir]
    rfl
  refine ⟨hmain, ?_, ?_, ?_⟩
  · intro hempty
    rw [hmain, hempty]
    rfl
  · intro f hf
    unfold complianceChecks at hf
    simp only at hf
    rcases List.mem_append.1 hf with hf | h6
    rcases List.mem_append.1 hf with hf | h5
    rcases List.mem_append.1 hf with hf | h4
    rcases List.mem_append.1 hf with hf | h3
    rcases List.mem_append.1 hf with h1 | h2
    · exact Or.inl (requiredChecks_fst r repoType f h1)
    · exact Or.inr (namingChecks_fst r f h2)
    · exact rustChecks_fst r repoType f h3
    · exact Or.inl (pythonChecks_fst r repoType f h4)
    · exact Or.inr (driftChecks_fst r f h5)
    · exact Or.inl (ciChecks_fst r repoType f h6)
  · intro p hp
    unfold complianceChecks at hp
    simp only at hp
    rcases List.mem_append.1 hp with hp | h6
    rcases List.mem_append.1 hp with hp | h5
    rcases List.mem_append.1 hp with hp | h4
    rcases List.mem_append.1 hp with hp | h3
    rcases List.mem_append.1 hp with h1 | h2
    · exact requiredChecks_snd r repoType p h1
    · exact namingChecks_snd r p h2
    · exact rustChecks_snd r repoType p h3
    · exact pythonChecks_snd r repoType p h4
    · exact driftChecks_snd r p h5
    · exact ciChecks_snd r repoType p h6

/-- Witness for `c4_report_layout`: an existing, completely empty
governance-type repo directory named `aces-x`. -/
theorem c4_witness :
    (("governance" : String) = "rust" ∨ ("governance" : String) = "python" ∨
      ("governance" : String) = "governance") ∧
    (RepoFS.mk "aces-x" true [] none).isDir = true ∧
    check_repo_compliance (RepoFS.mk "aces-x" true [] none) "/repos/aces-x"
        "governance" =
      joinSep "\n"
        (["# Compliance Report", "Repo: aces-x (governance)", ""] ++
         (if (complianceChecks (RepoFS.mk "aces-x" true [] none) "governance").1.isEmpty
          then [] else
           ["## Issues (" ++ toString (complianceChecks (RepoFS.mk "aces-x" true [] none)
               "governance").1.length ++ ")"] ++
             (complianceChecks (RepoFS.mk "aces-x" true [] none) "governance").1 ++ [""]) ++
         ["## Passed (" ++ toString (complianceChecks (RepoFS.mk "aces-x" true [] none)
             "governance").2.length ++ ")"] ++
         (complianceChecks (RepoFS.mk "aces-x" true [] none) "governance").2) :=
  ⟨Or.inr (Or.inr rfl), rfl,
    (c4_report_layout (RepoFS.mk "aces-x" true [] none) "/repos/aces-x" "governance"
      (Or.inr (Or.inr rfl)) rfl).1⟩

/-- C10: `check_repo_compliance` rejects an invalid `repo_type` with a
textual message naming it, before the directory is examined (the result
does not depend on the filesystem model); with a valid type and a path
that is not a directory it returns exactly `"Directory not found: "`
followed by the given path, evaluating no compliance rules and raising
nothing. -/
theorem c10_compliance_guards (r : RepoFS) (repoPath repoType : String) :
    (¬(repoType = "rust" ∨ repoType = "python" ∨ repoType = "governance") →
      check_repo_compliance r repoPath repoType =
        "Invalid repo_type: " ++ repoType ++ ". Must be rust, python, or governance.") ∧
    ((repoType = "rust" ∨ repoType = "python" ∨ repoType = "governance") →
      r.isDir = false →
      check_repo_compliance r repoPath repoType =
        "Directory not found: " ++ repoPath) := by
  constructor
  · intro h
    have hguard : (repoType == "rust" || repoType == "python" ||
        repoType == "governance") = false := by
      rcases hb : (repoType == "rust" || repoType == "python" ||
          repoType == "governance") with _ | _
      · rfl
      · exfalso
        apply h
        rcases Bool.or_eq_true_iff.1 hb with hb' | h3
        · rcases Bool.or_eq_true_iff.1 hb' with h1 | h2
          · exact Or.inl (by simpa using h1)
          · exact Or.inr (Or.inl (by simpa using h2))
        · exact Or.inr (Or.inr (by simpa using h3))
    unfold check_repo_compliance
    rw [hguard]
    rfl
  · intro hty hdir
    have hguard : (repoType == "rust" || repoType == "python" ||
        repoType == "governance") = true := by
      rcases hty with h | h | h <;> simp [h]
    unfold check_repo_compliance
    rw [hguard, hdir]
    rfl

/-- Witness for `c10_compliance_guards`: the invalid type `java` is
rejected by name; a valid type with a missing directory reports the
missing path. -/
theorem c10_witness :
    check_repo_compliance (RepoFS.mk "x" false [] none) "/nope" "java" =
      "Invalid repo_type: java. Must be rust, python, or governance." ∧
    check_repo_compliance (RepoFS.mk "x" false [] none) "/nope" "rust" =
      "Directory not found: /nope" :=
  ⟨(c10_compliance_guards (RepoFS.mk "x" false [] none) "/nope" "java").1
      (by intro h; rcases h with h | h | h <;> simp at h),
   (c10_compliance_guards (RepoFS.mk "x" false [] none) "/nope" "rust").2
      (Or.inl rfl) rfl⟩


/-- C3: when the zero-padded numeric form of the identifier matches no
decision-record filename prefix, `get_adr`'s keyword stage has exactly
three outcomes over the `[0-9]*.md` files: no file containing the
identifier (case-insensitively) gives a not-found message carrying the
query text; exactly one containing file gives that file's full content;
two or more give the disambiguation listing (one `- stem: title` line per
match, no bodies).  A file is a keyword match exactly when it is in the
listing, passes the digit glob, and its lowered content contains the
lowered identifier. -/
theorem c3_keyword_outcomes (adrFiles : List (String × String))
    (identifier : String)
    (hnum : adrNumericMatches adrFiles identifier = []) :
    (adrKeywordMatches adrFiles identifier = [] →
      get_adr adrFiles identifier =
        "No ADR found matching '" ++ identifier ++ "'.") ∧
    (∀ n c, adrKeywordMatches adrFiles identifier = [(n, c)] →
      get_adr adrFiles identifier = c) ∧
    (∀ x y l, adrKeywordMatches adrFiles identifier = x :: y :: l →
      get_adr adrFiles identifier =
        "Multiple ADRs match:\n" ++
          joinSep "\n" ((adrKeywordMatches adrFiles identifier).map
            (fun p => "- " ++ pyStem p.1 ++ ": " ++ adrTitle p.1 p.2))) ∧
    (∀ p, p ∈ adrKeywordMatches adrFiles identifier ↔
      p ∈ adrFiles ∧ digitGlobMatch p.1 = true ∧
        strContains (pyLower p.2) (pyLower identifier) = true) := by
  refine ⟨?_, ?_, ?_, ?_⟩
  · intro hkw
    unfold get_adr
    rw [hnum, hkw]
  · intro n c hkw
    unfold get_adr
    rw [hnum, hkw]
  · intro x y l hkw
    unfold get_adr
    rw [hnum, hkw]
  · intro p
    unfold adrKeywordMatches
    rw [List.mem_filter]
    simp [and_assoc]

/-- Witness for `c3_keyword_outcomes`: all three outcomes at concrete
directory listings. -/
theorem c3_witness :
    adrNumericMatches
        [("0001-foo.md", "# Foo\nalpha"), ("0002-bar.md", "# Bar\nAlpha")]
        "alpha" = [] ∧
    get_adr [("0001-foo.md", "# Foo\nalpha"), ("0002-bar.md", "# Bar\nAlpha")]
        "alpha" = "Multiple ADRs match:\n- 0001-foo: Foo\n- 0002-bar: Bar" ∧
    get_adr [("0001-foo.md", "# Foo\nalpha"), ("0002-bar.md", "# Bar\nAlpha")]
        "zzz" = "No ADR found matching 'zzz'." ∧
    get_adr [("0001-foo.md", "# Foo\nalpha")] "alpha" = "# Foo\nalpha" := by
  refine ⟨by decide, ?_, ?_, ?_⟩
  · rw [(c3_keyword_outcomes
        [("0001-foo.md", "# Foo\nalpha"), ("0002-bar.md", "# Bar\nAlpha")]
        "alpha" (by decide)).2.2.1
        ("0001-foo.md", "# Foo\nalpha") ("0002-bar.md", "# Bar\nAlpha") []
        (by decide)]
    decide
  · exact (c3_keyword_outcomes
      [("0001-foo.md", "# Foo\nalpha"), ("0002-bar.md", "# Bar\nAlpha")]
      "zzz" (by decide)).1 (by decide)
  · exact (c3_keyword_outcomes [("0001-foo.md", "# Foo\nalpha")] "alpha"
      (by decide)).2.1 "0001-foo.md" "# Foo\nalpha" (by decide)


lemma pfxB_iff (n : List Char) : ∀ h : List Char, pfxB n h = true ↔ n <+: h := by
  induction n with
  | nil => intro h; simp [pfxB]
  | cons a as ih =>
    intro h
    cases h with
    | nil => simp [pfxB]
    | cons b bs =>
      simp only [pfxB, Bool.and_eq_true, decide_eq_true_eq, List.cons_prefix_cons, ih bs]

lemma infB_iff (n : List Char) : ∀ h : List Char, infB n h = true ↔ n <:+: h := by
  intro h
  induction h with
  | nil =>
    simp only [infB, pfxB_iff]
    rw [List.prefix_nil, List.infix_nil]
  | cons c t ih =>
    simp only [infB, Bool.or_eq_true, pfxB_iff, ih, List.infix_cons_iff]

lemma strContains_iff (s sub : String) :
    strContains s sub = true ↔ sub.data <:+: s.data :=
  infB_iff sub.data s.data

lemma splitNl_ne_nil (cs : List Char) : splitNl cs ≠ [] := by
  cases cs with
  | nil => simp [splitNl]
  | cons c t =>
    simp only [splitNl]
    by_cases h : c = '\n'
    · simp [h]
    · rw [if_neg h]
      rcases splitNl t with _ | ⟨h', t'⟩ <;> simp

lemma splitNl_head_prefix :
    ∀ (cs : List Char) (h : List Char) (t : List (List Char)),
      splitNl cs = h :: t → h <+: cs := by
  intro cs
  induction cs with
  | nil =>
    intro h t he
    simp only [splitNl, List.cons.injEq] at he
    rw [← he.1]
  | cons c cs' ih =>
    intro h t he
    by_cases hc : c = '\n'
    · rw [splitNl, if_pos hc] at he
      injection he with h1 _
      rw [← h1]
      exact List.nil_prefix
    · rw [splitNl, if_neg hc] at he
      rcases hs : splitNl cs' with _ | ⟨h', t'⟩
      · exact absurd hs (splitNl_ne_nil cs')
      · rw [hs, List.cons.injEq] at he
        rw [← he.1]
        exact (List.cons_prefix_cons).2 ⟨rfl, ih h' t' hs⟩

lemma mem_splitNl_infix :
    ∀ (cs : List Char) (l : List Char), l ∈ splitNl cs → l <:+: cs := by
  intro cs
  induction cs with
  | nil =>
    intro l hl
    simp only [splitNl, List.mem_singleton] at hl
    rw [hl]
  | cons c cs' ih =>
    intro l hl
    by_cases hc : c = '\n'
    · rw [splitNl, if_pos hc] at hl
      rcases List.mem_cons.1 hl with h | h
      · rw [h]; exact List.nil_infix
      · exact List.infix_cons (ih l h)
    · rw [splitNl, if_neg hc] at hl
      rcases hs : splitNl cs' with _ | ⟨h', t'⟩
      · exact absurd hs (splitNl_ne_nil cs')
      · rw [hs] at hl
        rcases List.mem_cons.1 hl with h | h
        · rw [h]
          exact ((List.cons_prefix_cons).2 ⟨rfl, splitNl_head_prefix cs' h' t' hs⟩).isInfix
        · exact List.infix_cons (ih l (hs ▸ List.mem_cons_of_mem h' h))

lemma mem_pySplitlines_infix (s : String) (line : String)
    (h : line ∈ pySplitlines s) : line.data <:+: s.data := by
  unfold pySplitlines at h
  simp only at h
  rcases List.mem_map.1 h with ⟨l, hl, hmk⟩
  have hmem : l ∈ splitNl s.data := by
    rcases hcase : (splitNl s.data).getLast? with _ | last
    · rw [hcase] at hl; exact hl
    · rcases last with _ | ⟨c, cs⟩
      · rw [hcase] at hl
        exact List.dropLast_sublist (splitNl s.data) |>.mem hl
      · rw [hcase] at hl; exact hl
  have : line.data = l := by rw [← hmk]
  rw [this]
  exact mem_splitNl_infix s.data l hmem

lemma line_contains_imp_content (c line q : String)
    (hmem : line ∈ pySplitlines c)
    (h : strContains (pyLower line) q = true) :
    strContains (pyLower c) q = true := by
  rw [strContains_iff] at h ⊢
  have h1 : line.data <:+: c.data := mem_pySplitlines_infix c line hmem
  have h2 : (pyLower line).data <:+: (pyLower c).data := by
    unfold pyLower
    exact List.IsInfix.map pyLowerChar h1
  exact h.trans h2

/-- C5 claim as stated, evaluated at a refuting input: the query `"a\nb"`
spans a line break, so the standards document `"a\nb"` contains the query
case-insensitively, yet `search_governance` emits no excerpt for it and
returns the no-results message: the per-line scan never finds a line
containing the query. -/
theorem c5_counterexample :
    strContains (pyLower "a\nb") (pyLower "a\nb") = true ∧
    search_governance (some "a\nb") none none [] "a\nb" =
      "No results for 'a\nb'." :=
  ⟨by decide, by decide⟩

/-- C5 (amended): `search_governance` emits at most one excerpt per
document of the fixed search list (one optional entry per file); for each
document one of whose *lines* contains the query case-insensitively
(equivalently: whose content contains it with the query spanning no line
break), the entry is built from the first matching line, with one line of
context either side clamped to the document bounds, tagged with the
document's root-relative path and the 1-based line number; a document
with no matching line contributes nothing; if no document contributes,
the single no-results message naming the query is returned, else the
entries joined by blank lines. -/
theorem c5_search (standards architecture readme : Option String)
    (adrFiles : List (String × String)) (query : String) :
    (∀ rel content,
      ((∃ line ∈ pySplitlines content,
          strContains (pyLower line) (pyLower query) = true) →
        ∃ i, (pySplitlines content).findIdx?
            (fun l => strContains (pyLower l) (pyLower query)) = some i ∧
          searchEntry query rel content =
            some ("**" ++ rel ++ "** (line " ++ toString (i + 1) ++ "):\n```\n" ++
              joinSep "\n" (((pySplitlines content).take
                (min (pySplitlines content).length (i + 2))).drop (i - 1)) ++
              "\n```")) ∧
      ((¬∃ line ∈ pySplitlines content,
          strContains (pyLower line) (pyLower query) = true) →
        searchEntry query rel content = none)) ∧
    (searchResults standards architecture readme adrFiles query = [] →
      search_governance standards architecture readme adrFiles query =
        "No results for '" ++ query ++ "'.") ∧
    (∀ res l,
      searchResults standards architecture readme adrFiles query = res :: l →
      search_governance standards architecture readme adrFiles query =
        joinSep "\n\n" (res :: l)) := by
  refine ⟨?_, ?_, ?_⟩
  · intro rel content
    constructor
    · rintro ⟨line, hline, hcont⟩
      have hwhole : strContains (pyLower content) (pyLower query) = true :=
        line_contains_imp_content content line (pyLower query) hline hcont
      have hidx : ((pySplitlines content).findIdx?
          (fun l => strContains (pyLower l) (pyLower query))).isSome := by
        rcases hn : (pySplitlines content).findIdx?
            (fun l => strContains (pyLower l) (pyLower query)) with _ | i
        · exfalso
          exact absurd hcont (by simpa using List.findIdx?_eq_none_iff.1 hn line hline)
        · rfl
      rcases Option.isSome_iff_exists.1 hidx with ⟨i, hi⟩
      refine ⟨i, hi, ?_⟩
      unfold searchEntry
      simp only [hwhole, hi]
      rw [if_pos trivial]
    · intro hno
      unfold searchEntry
      by_cases hwhole : strContains (pyLower content) (pyLower query) = true
      · have hnone : (pySplitlines content).findIdx?
            (fun l => strContains (pyLower l) (pyLower query)) = none := by
          rw [List.findIdx?_eq_none_iff]
          intro l hl
          by_cases hc : strContains (pyLower l) (pyLower query) = true
          · exact absurd ⟨l, hl, hc⟩ hno
          · simpa using hc
        simp only [hwhole, hnone]
        rw [if_pos trivial]
      · simp only [Bool.not_eq_true] at hwhole
        simp only [hwhole]
        simp
  · intro h
    unfold search_governance
    rw [h]
  · intro res l h
    unfold search_governance
    rw [h]

/-- Witness for `c5_search`: a term on line 2 of a three-line standards
document yields one excerpt with the correct tag, 1-based line number and
one line of context either side. -/
theorem c5_witness :
    (∃ line ∈ pySplitlines "x\nHELLO w\ny",
      strContains (pyLower line) (pyLower "hello") = true) ∧
    searchEntry "hello" "STANDARDS.md" "x\nHELLO w\ny" =
      some "**STANDARDS.md** (line 2):\n```\nx\nHELLO w\ny\n```" ∧
    search_governance (some "x\nHELLO w\ny") none none [] "hello" =
      "**STANDARDS.md** (line 2):\n```\nx\nHELLO w\ny\n```" := by
  refine ⟨⟨"HELLO w", by decide, by decide⟩, ?_, ?_⟩
  · rcases ((c5_search (some "x\nHELLO w\ny") none none [] "hello").1
        "STANDARDS.md" "x\nHELLO w\ny").1
        ⟨"HELLO w", by decide, by decide⟩ with ⟨i, hi, he⟩
    have h2 : (pySplitlines "x\nHELLO w\ny").findIdx?
        (fun l => strContains (pyLower l) (pyLower "hello")) = some 1 := by decide
    rw [h2] at hi
    have : (1 : Nat) = i := Option.some_inj.1 hi
    rw [← this] at he
    rw [he]
    decide
  · rw [(c5_search (some "x\nHELLO w\ny") none none [] "hello").2.2
      "**STANDARDS.md** (line 2):\n```\nx\nHELLO w\ny\n```" [] (by decide)]
    decide


lemma lexLeB_refl : ∀ a : List Char, lexLeB a a = true := by
  intro a
  induction a with
  | nil => rfl
  | cons c t ih => simp [lexLeB, ih]

lemma lexLeB_total : ∀ a b : List Char, lexLeB a b = true ∨ lexLeB b a = true := by
  intro a
  induction a with
  | nil => intro b; left; rfl
  | cons c t ih =>
    intro b
    cases b with
    | nil => right; rfl
    | cons d u =>
      simp only [lexLeB]
      rcases Nat.lt_trichotomy c.toNat d.toNat with h | h | h
      · left; rw [if_pos h]
      · rw [if_neg (by omega), if_neg (by omega), if_neg (by omega), if_neg (by omega)]
        exact ih u
      · right; rw [if_pos h]

lemma lexLeB_trans : ∀ a b c : List Char,
    lexLeB a b = true → lexLeB b c = true → lexLeB a c = true := by
  intro a
  induction a with
  | nil => intro b c _ _; rfl
  | cons x xs ih =>
    intro b c hab hbc
    cases b with
    | nil => exact absurd hab (by simp [lexLeB])
    | cons y ys =>
      cases c with
      | nil => exact absurd hbc (by simp [lexLeB])
      | cons z zs =>
        simp only [lexLeB] at hab hbc ⊢
        rcases Nat.lt_trichotomy x.toNat y.toNat with h1 | h1 | h1
        · rcases Nat.lt_trichotomy y.toNat z.toNat with h2 | h2 | h2
          · rw [if_pos (by omega)]
          · rw [if_pos (by omega)]
          · rw [if_neg (by omega), if_pos h2] at hbc
            exact absurd hbc (by simp)
        · rcases Nat.lt_trichotomy y.toNat z.toNat with h2 | h2 | h2
          · rw [if_pos (by omega)]
          · rw [if_neg (by omega), if_neg (by omega)]
            rw [if_neg (by omega), if_neg (by omega)] at hab
            rw [if_neg (by omega), if_neg (by omega)] at hbc
            exact ih ys zs hab hbc
          · rw [if_neg (by omega), if_pos h2] at hbc
            exact absurd hbc (by simp)
        · rw [if_neg (by omega), if_pos h1] at hab
          exact absurd hab (by simp)

lemma strLeB_trans (a b c : String)
    (h1 : strLeB a b = true) (h2 : strLeB b c = true) : strLeB a c = true :=
  lexLeB_trans a.data b.data c.data h1 h2

lemma mem_insertLe (s : String) :
    ∀ (l : List String) (y : String), y ∈ insertLe s l ↔ y = s ∨ y ∈ l := by
  intro l
  induction l with
  | nil => intro y; simp [insertLe]
  | cons x xs ih =>
    intro y
    simp only [insertLe]
    by_cases h : strLeB s x = true
    · rw [if_pos h]
      simp only [List.mem_cons]
    · rw [if_neg h]
      simp only [List.mem_cons, ih y]
      tauto

lemma insertLe_pairwise (s : String) :
    ∀ l : List String, l.Pairwise (fun a b => strLeB a b = true) →
      (insertLe s l).Pairwise (fun a b => strLeB a b = true) := by
  intro l
  induction l with
  | nil => intro _; simp [insertLe]
  | cons x xs ih =>
    intro hp
    rcases List.pairwise_cons.1 hp with ⟨hx, hxs⟩
    simp only [insertLe]
    by_cases h : strLeB s x = true
    · rw [if_pos h]
      refine List.pairwise_cons.2 ⟨?_, hp⟩
      intro y hy
      rcases List.mem_cons.1 hy with hy | hy
      · rw [hy]; exact h
      · exact strLeB_trans s x y h (hx y hy)
    · rw [if_neg h]
      refine List.pairwise_cons.2 ⟨?_, ih hxs⟩
      intro y hy
      rcases (mem_insertLe s xs y).1 hy with hy | hy
      · rw [hy]
        rcases lexLeB_total s.data x.data with ht | ht
        · exact absurd ht h
        · exact ht
      · exact hx y hy

lemma sortStrings_pairwise (l : List String) :
    (sortStrings l).Pairwise (fun a b => strLeB a b = true) := by
  induction l with
  | nil => simp [sortStrings]
  | cons x xs ih => exact insertLe_pairwise x (xs.foldr insertLe []) ih

lemma mem_sortStrings (l : List String) (y : String) :
    y ∈ sortStrings l ↔ y ∈ l := by
  induction l with
  | nil => simp [sortStrings]
  | cons x xs ih =>
    show y ∈ insertLe x (xs.foldr insertLe []) ↔ _
    rw [mem_insertLe x _ y]
    simp only [List.mem_cons]
    have ih' : y ∈ List.foldr insertLe [] xs ↔ y ∈ xs := ih
    rw [ih']

lemma sortStrings_ne_nil (l : List String) (h : l ≠ []) : sortStrings l ≠ [] := by
  cases l with
  | nil => exact absurd rfl h
  | cons x xs =>
    intro hc
    have : x ∈ sortStrings (x :: xs) := (mem_sortStrings _ x).2 (List.mem_cons_self _ _)
    rw [hc] at this
    exact absurd this (List.not_mem_nil x)

lemma pairwise_getLast_max :
    ∀ (l : List String), l.Pairwise (fun a b => strLeB a b = true) →
      ∀ m, l.getLast? = some m → ∀ x ∈ l, strLeB x m = true := by
  intro l
  induction l with
  | nil => intro _ m hm; exact absurd hm (by simp)
  | cons a t ih =>
    intro hp m hm x hx
    rcases List.pairwise_cons.1 hp with ⟨ha, ht⟩
    cases t with
    | nil =>
      have hma : m = a := by
        simp only [List.getLast?_singleton, Option.some.injEq] at hm
        exact hm.symm
      have hxa : x = a := List.mem_singleton.1 hx
      rw [hma, hxa]
      exact lexLeB_refl a.data
    | cons b t' =>
      have hm' : (b :: t').getLast? = some m := by
        rw [← List.getLast?_cons_cons]
        exact hm
      rcases List.mem_cons.1 hx with hxa | hxt
      · rw [hxa]
        exact ha m (List.mem_of_getLast?_eq_some hm')
      · exact ih ht m hm' x hxt


/-- The first four characters of a filename, parsed as an integer
(`int(name[:4])`; `none` when that call would raise). -/
def numPrefix (name : String) : Option Nat :=
  pyIntDigits (String.mk (name.data.take 4))

/-- The `NNNN-slug.md` naming scheme of decision-record files. -/
def adrScheme (name : String) : Prop :=
  ∃ k slug, k < 10000 ∧ name = pad4 k ++ "-" ++ slug ++ ".md"

lemma digCh_toNat_lt_iff :
    ∀ u, u < 10 → ∀ v, v < 10 → ((digCh u).toNat < (digCh v).toNat ↔ u < v) := by
  decide

lemma digCh_isDigit : ∀ u, u < 10 → (digCh u).isDigit = true := by
  decide

lemma digCh_toNat_sub : ∀ u, u < 10 → (digCh u).toNat - 48 = u := by
  decide

lemma pad4_data (k : Nat) (h : k < 10000) :
    (pad4 k).data =
      [digCh (k / 1000), digCh (k / 100 % 10), digCh (k / 10 % 10), digCh (k % 10)] := by
  unfold pad4
  rw [if_pos h]

lemma lexLeB_pad4_false (ka kb : Nat) (ha : ka < 10000) (hb : kb < 10000)
    (h : kb < ka) (x y : List Char) :
    lexLeB ((pad4 ka).data ++ x) ((pad4 kb).data ++ y) = false := by
  rw [pad4_data ka ha, pad4_data kb hb]
  have d1a : ka / 1000 < 10 := by omega
  have d1b : kb / 1000 < 10 := by omega
  have d2a : ka / 100 % 10 < 10 := by omega
  have d2b : kb / 100 % 10 < 10 := by omega
  have d3a : ka / 10 % 10 < 10 := by omega
  have d3b : kb / 10 % 10 < 10 := by omega
  have d4a : ka % 10 < 10 := by omega
  have d4b : kb % 10 < 10 := by omega
  simp only [List.cons_append, List.nil_append, lexLeB]
  rcases Nat.lt_trichotomy (ka / 1000) (kb / 1000) with h1 | h1 | h1
  · omega
  · rw [if_neg (by rw [digCh_toNat_lt_iff _ d1a _ d1b]; omega),
      if_neg (by rw [digCh_toNat_lt_iff _ d1b _ d1a]; omega)]
    rcases Nat.lt_trichotomy (ka / 100 % 10) (kb / 100 % 10) with h2 | h2 | h2
    · omega
    · rw [if_neg (by rw [digCh_toNat_lt_iff _ d2a _ d2b]; omega),
        if_neg (by rw [digCh_toNat_lt_iff _ d2b _ d2a]; omega)]
      rcases Nat.lt_trichotomy (ka / 10 % 10) (kb / 10 % 10) with h3 | h3 | h3
      · omega
      · rw [if_neg (by rw [digCh_toNat_lt_iff _ d3a _ d3b]; omega),
          if_neg (by rw [digCh_toNat_lt_iff _ d3b _ d3a]; omega)]
        rcases Nat.lt_trichotomy (ka % 10) (kb % 10) with h4 | h4 | h4
        · omega
        · omega
        · rw [if_neg (by rw [digCh_toNat_lt_iff _ d4a _ d4b]; omega),
            if_pos (by rw [digCh_toNat_lt_iff _ d4b _ d4a]; omega)]
      · rw [if_neg (by rw [digCh_toNat_lt_iff _ d3a _ d3b]; omega),
          if_pos (by rw [digCh_toNat_lt_iff _ d3b _ d3a]; omega)]
    · rw [if_neg (by rw [digCh_toNat_lt_iff _ d2a _ d2b]; omega),
        if_pos (by rw [digCh_toNat_lt_iff _ d2b _ d2a]; omega)]
  · rw [if_neg (by rw [digCh_toNat_lt_iff _ d1a _ d1b]; omega),
      if_pos (by rw [digCh_toNat_lt_iff _ d1b _ d1a]; omega)]

lemma scheme_data (k : Nat) (slug : String) :
    (pad4 k ++ "-" ++ slug ++ ".md").data =
      (pad4 k).data ++ ('-' :: slug.data ++ ['.', 'm', 'd']) := by
  simp [String.data_append, List.append_assoc]

lemma scheme_le_mono (a b : String) (ka kb : Nat) (sa sb : String)
    (hka : ka < 10000) (hkb : kb < 10000)
    (hae : a = pad4 ka ++ "-" ++ sa ++ ".md")
    (hbe : b = pad4 kb ++ "-" ++ sb ++ ".md")
    (hle : strLeB a b = true) : ka ≤ kb := by
  by_contra hgt
  have : lexLeB a.data b.data = false := by
    rw [hae, hbe, scheme_data, scheme_data]
    exact lexLeB_pad4_false ka kb hka hkb (by omega) _ _
  rw [strLeB] at hle
  rw [this] at hle
  exact absurd hle (by simp)

lemma numPrefix_scheme (k : Nat) (slug : String) (hk : k < 10000) :
    numPrefix (pad4 k ++ "-" ++ slug ++ ".md") = some k := by
  unfold numPrefix
  rw [scheme_data]
  have hlen : (pad4 k).data.length = 4 := by
    rw [pad4_data k hk]
    rfl
  rw [List.take_append_of_le_length (by omega), ← hlen, List.take_length]
  rw [pad4_data k hk]
  have h1 : k / 1000 < 10 := by omega
  have h2 : k / 100 % 10 < 10 := by omega
  have h3 : k / 10 % 10 < 10 := by omega
  have h4 : k % 10 < 10 := by omega
  unfold pyIntDigits
  rw [if_pos ?hc]
  case hc =>
    refine ⟨by simp, ?_⟩
    simp only [List.all_cons, List.all_nil, Bool.and_eq_true]
    exact ⟨digCh_isDigit _ h1, digCh_isDigit _ h2, digCh_isDigit _ h3,
      digCh_isDigit _ h4, trivial⟩
  simp only [List.foldl_cons, List.foldl_nil]
  rw [digCh_toNat_sub _ h1, digCh_toNat_sub _ h2, digCh_toNat_sub _ h3,
    digCh_toNat_sub _ h4]
  congr 1
  omega

lemma strEnds_append (x suffix : String) : strEnds (x ++ suffix) suffix = true := by
  unfold strEnds
  rw [String.data_append, List.reverse_append]
  exact pfxB_append _ _

lemma digitGlobMatch_scheme (k : Nat) (slug : String) (hk : k < 10000) :
    digitGlobMatch (pad4 k ++ "-" ++ slug ++ ".md") = true := by
  unfold digitGlobMatch
  rw [scheme_data, pad4_data k hk]
  simp only [List.cons_append, Bool.and_eq_true]
  refine ⟨⟨digCh_isDigit _ (by omega), ?_⟩, ?_⟩
  · exact strEnds_append (pad4 k ++ "-" ++ slug) ".md"
  · simp only [decide_eq_true_eq, List.length_cons, List.length_append,
      List.length_nil]
    omega


/-- C6: over a decision-record directory whose entries all follow the
`NNNN-slug.md` scheme, `propose_adr` computes the number as the highest
existing 4-digit prefix plus one (or 1 when the directory is empty), and
embeds it zero-padded to four digits in the generated issue body, whatever
title, context and decision texts are supplied; the number appears only in
that text (the function performs no writes, it only shells out to `gh`). -/
theorem c6_propose_numbering (adrNames : List String)
    (title context decision : String)
    (hscheme : ∀ n ∈ adrNames, adrScheme n) :
    (adrNames = [] → nextAdrNum adrNames = some 1 ∧
      proposeIssueBody adrNames title context decision =
        some ("## Proposed ADR-" ++ pad4 1 ++ ": " ++ title ++
          "\n\n### Status\n\nProposed\n\n### Context\n\n" ++ context ++
          "\n\n### Decision (sketch)\n\n" ++ decision ++
          "\n\n---\n*This ADR proposal was created by the ACES Governance MCP agent.\nDiscuss here, then create the formal ADR once consensus is reached.*")) ∧
    (adrNames ≠ [] → ∃ m, m < 10000 ∧
      (∃ n ∈ adrNames, numPrefix n = some m) ∧
      (∀ n ∈ adrNames, ∀ k, numPrefix n = some k → k ≤ m) ∧
      nextAdrNum adrNames = some (m + 1) ∧
      proposeIssueBody adrNames title context decision =
        some ("## Proposed ADR-" ++ pad4 (m + 1) ++ ": " ++ title ++
          "\n\n### Status\n\nProposed\n\n### Context\n\n" ++ context ++
          "\n\n### Decision (sketch)\n\n" ++ decision ++
          "\n\n---\n*This ADR proposal was created by the ACES Governance MCP agent.\nDiscuss here, then create the formal ADR once consensus is reached.*")) := by
  constructor
  · intro h
    subst h
    exact ⟨rfl, rfl⟩
  · intro hne
    have hfilter : adrNames.filter digitGlobMatch = adrNames := by
      rw [List.filter_eq_self]
      intro n hn
      rcases hscheme n hn with ⟨k, slug, hk, he⟩
      rw [he]
      exact digitGlobMatch_scheme k slug hk
    have hsne : sortStrings adrNames ≠ [] := sortStrings_ne_nil _ hne
    rcases hlastq : (sortStrings adrNames).getLast? with _ | last
    · exfalso
      rcases hl : sortStrings adrNames with _ | ⟨a, t⟩
      · exact hsne hl
      · rw [hl] at hlastq
        rcases hg : (a :: t).getLast? with _ | z
        · cases t with
          | nil => exact absurd hg (by simp)
          | cons b t' => exact absurd hg (by simp [List.getLast?_cons_cons])
        · rw [hg] at hlastq
          exact absurd hlastq (by simp)
    · have hlastmem : last ∈ adrNames :=
        (mem_sortStrings _ _).1 (List.mem_of_getLast?_eq_some hlastq)
      rcases hscheme last hlastmem with ⟨m, slugm, hm, hlaste⟩
      have hnum : numPrefix last = some m := by
        rw [hlaste]
        exact numPrefix_scheme m slugm hm
      have hnext : nextAdrNum adrNames = some (m + 1) := by
        unfold nextAdrNum
        rw [hfilter, hlastq]
        show Option.map (fun x => x + 1)
          (pyIntDigits (String.mk (last.data.take 4))) = some (m + 1)
        rw [show pyIntDigits (String.mk (last.data.take 4)) = some m from hnum]
        rfl
      refine ⟨m, hm, ⟨last, hlastmem, hnum⟩, ?_, hnext, ?_⟩
      · intro n hn k hk
        rcases hscheme n hn with ⟨kn, slugn, hkn, hnee⟩
        have hkeq : k = kn := by
          rw [hnee, numPrefix_scheme kn slugn hkn] at hk
          exact (Option.some_inj.1 hk).symm
        have hle : strLeB n last = true :=
          pairwise_getLast_max _ (sortStrings_pairwise adrNames) last hlastq n
            ((mem_sortStrings _ _).2 hn)
        have := scheme_le_mono n last kn m slugn slugm hkn hm hnee hlaste hle
        omega
      · unfold proposeIssueBody
        rw [hnext]
        rfl

/-- Witness for `c6_propose_numbering`: on a directory whose highest
record number is 0019, the issue body embeds 0020 whatever texts are
supplied. -/
theorem c6_witness :
    nextAdrNum ["0001-foo.md", "0019-bar.md"] = some 20 ∧
    proposeIssueBody ["0001-foo.md", "0019-bar.md"] "T" "C" "D" =
      some ("## Proposed ADR-0020: T" ++
        "\n\n### Status\n\nProposed\n\n### Context\n\nC" ++
        "\n\n### Decision (sketch)\n\nD" ++
        "\n\n---\n*This ADR proposal was created by the ACES Governance MCP agent.\nDiscuss here, then create the formal ADR once consensus is reached.*") := by
  have hscheme : ∀ n ∈ (["0001-foo.md", "0019-bar.md"] : List String), adrScheme n := by
    intro n hn
    rcases List.mem_cons.1 hn with h | h
    · exact ⟨1, "foo", by omega, by rw [h]; decide⟩
    · rcases List.mem_cons.1 h with h2 | h2
      · exact ⟨19, "bar", by omega, by rw [h2]; decide⟩
      · exact absurd h2 (List.not_mem_nil n)
  rcases (c6_propose_numbering ["0001-foo.md", "0019-bar.md"] "T" "C" "D"
      hscheme).2 (by simp) with ⟨m, _, ⟨n, hnmem, hnum⟩, _, hnext, hbody⟩
  have hm19 : m = 19 := by
    have hn19 : numPrefix "0019-bar.md" = some 19 := by decide
    have hn01 : numPrefix "0001-foo.md" = some 1 := by decide
    rcases List.mem_cons.1 hnmem with h | h
    · rw [h, hn01] at hnum
      have hev : nextAdrNum ["0001-foo.md", "0019-bar.md"] = some 20 := by decide
      rw [hev] at hnext
      have := Option.some_inj.1 hnext
      omega
    · rcases List.mem_cons.1 h with h2 | h2
      · rw [h2, hn19] at hnum
        exact (Option.some_inj.1 hnum).symm
      · exact absurd h2 (List.not_mem_nil n)
  constructor
  · rw [hnext, hm19]
  · rw [hbody, hm19]
    decide


/-- C9: with the governance root present and its documents supplied, each
lookup operation is a total function on strings whose result is always one
of its enumerated textual outcomes — some document's (or section's or
template's) content, a not-found message, a listing, or a joined excerpt
list; absence, ambiguity and invalid queries are all rendered as returned
text (the only fallible Python steps, the file reads, are covered by the
hypothesis that the root's documents exist, modelled by passing their
contents). -/
theorem c9_lookups_always_text (adrFiles templates : List (String × String))
    (standards architecture : String) (std arch readme : Option String)
    (ident secq name q : String) :
    ((∃ p ∈ adrFiles, get_adr adrFiles ident = p.2) ∨
      get_adr adrFiles ident = "No ADR found matching '" ++ ident ++ "'." ∨
      ∃ rest, get_adr adrFiles ident = "Multiple ADRs match:\n" ++ rest) ∧
    ((∃ p ∈ parse_sections standards 2, get_standard standards secq = p.2) ∨
      get_standard standards secq =
        "No section found matching '" ++ secq ++ "'." ∨
      ∃ rest, get_standard standards secq =
        "Multiple sections match:\n" ++ rest) ∧
    ((∃ p ∈ parse_sections architecture 2,
        get_architecture architecture secq = p.2) ∨
      get_architecture architecture secq =
        "No section found matching '" ++ secq ++ "'." ∨
      ∃ rest, get_architecture architecture secq =
        "Multiple sections match:\n" ++ rest) ∧
    ((∃ rest, get_template templates name = "Available templates:\n" ++ rest) ∨
      (∃ p ∈ templates, get_template templates name = p.2) ∨
      get_template templates name = "Template '" ++ name ++
        "' not found. Use get_template('list') to see available templates." ∨
      ∃ rest, get_template templates name = "Multiple templates match:\n" ++ rest) ∧
    (search_governance std arch readme adrFiles q =
        "No results for '" ++ q ++ "'." ∨
      ∃ l, l ≠ [] ∧
        search_governance std arch readme adrFiles q = joinSep "\n\n" l) := by
  refine ⟨?_, ?_, ?_, ?_, ?_⟩
  · unfold get_adr
    rcases hn : adrNumericMatches adrFiles ident with _ | ⟨m, rest⟩
    · simp only [hn]
      rcases hk : adrKeywordMatches adrFiles ident with _ | ⟨r, krest⟩
      · right; left; rfl
      · rcases krest with _ | ⟨r2, krest2⟩
        · left
          refine ⟨r, ?_, rfl⟩
          have : r ∈ adrKeywordMatches adrFiles ident := by
            rw [hk]; exact List.mem_singleton.2 rfl
          exact List.mem_of_mem_filter this
        · right; right
          exact ⟨_, rfl⟩
    · simp only [hn]
      left
      refine ⟨m, ?_, rfl⟩
      have : m ∈ adrNumericMatches adrFiles ident := by
        rw [hn]; exact List.mem_cons_self _ _
      exact List.mem_of_mem_filter this
  · unfold get_standard
    rcases hf : (parse_sections standards 2).find?
        (fun p => sectionNumPrefix p.1 == some (pyStrip secq)) with _ | p
    · simp only [hf]
      rcases hm : (parse_sections standards 2).filter
          (fun p => strContains (pyLower p.1) (pyLower secq) ||
            strContains (pyLower p.2) (pyLower secq)) with _ | ⟨m1, mrest⟩
      · simp only [hm]
        right; left; trivial
      · simp only [hm]
        rcases mrest with _ | ⟨m2, mrest2⟩
        · left
          refine ⟨m1, ?_, rfl⟩
          have : m1 ∈ (parse_sections standards 2).filter
              (fun p => strContains (pyLower p.1) (pyLower secq) ||
                strContains (pyLower p.2) (pyLower secq)) := by
            rw [hm]; exact List.mem_singleton.2 rfl
          exact List.mem_of_mem_filter this
        · right; right
          rw [String.append_assoc]
          exact ⟨_, rfl⟩
    · simp only [hf]
      left
      exact ⟨p, List.mem_of_find?_eq_some hf, rfl⟩
  · unfold get_architecture
    rcases hm : (parse_sections architecture 2).filter
        (fun p => strContains (pyLower p.1) (pyLower secq) ||
          strContains (pyLower p.2) (pyLower secq)) with _ | ⟨m1, mrest⟩
    · simp only [hm]
      right; left; trivial
    · simp only [hm]
      rcases mrest with _ | ⟨m2, mrest2⟩
      · left
        refine ⟨m1, ?_, rfl⟩
        have : m1 ∈ (parse_sections architecture 2).filter
            (fun p => strContains (pyLower p.1) (pyLower secq) ||
              strContains (pyLower p.2) (pyLower secq)) := by
          rw [hm]; exact List.mem_singleton.2 rfl
        exact List.mem_of_mem_filter this
      · right; right
        exact ⟨_, rfl⟩
  · unfold get_template
    by_cases hlist : (pyLower name == "list") = true
    · rw [if_pos hlist]
      left
      exact ⟨_, rfl⟩
    · rw [if_neg hlist]
      rcases hf : templates.find? (fun p => p.1 == name) with _ | p
      · simp only [hf]
        rcases hm : templates.filter
            (fun p => strContains (pyLower (pyBasename p.1)) (pyLower name))
            with _ | ⟨m1, mrest⟩
        · simp only [hm]
          right; right; left; trivial
        · simp only [hm]
          rcases mrest with _ | ⟨m2, mrest2⟩
          · right; left
            refine ⟨m1, ?_, rfl⟩
            have : m1 ∈ templates.filter
                (fun p => strContains (pyLower (pyBasename p.1)) (pyLower name)) := by
              rw [hm]; exact List.mem_singleton.2 rfl
            exact List.mem_of_mem_filter this
          · right; right; right
            exact ⟨_, rfl⟩
      · simp only [hf]
        right; left
        exact ⟨p, List.mem_of_find?_eq_some hf, rfl⟩
  · unfold search_governance
    rcases hr : searchResults std arch readme adrFiles q with _ | ⟨r, rest⟩
    · simp only [hr]
      left; trivial
    · simp only [hr]
      right
      exact ⟨r :: rest, by simp, rfl⟩


/-- Witness for `c1_last_write_wins`: two sections titled `A`; the parse
keeps one entry, bound to the second occurrence's body. -/
theorem c1_witness :
    ("A" : String) ≠ "" ∧
    2 ≤ (headingTitles "## A\nx\n## A\ny" 2).count "A" ∧
    ((parse_sections "## A\nx\n## A\ny" 2).countP (fun p => p.1 == "A") = 1 ∧
      ∃ seg, ((segsAux 2 (pySplitlines "## A\nx\n## A\ny")).2).reverse.find?
          (fun s => s.1 == "A") = some seg ∧
        dictFind (parse_sections "## A\nx\n## A\ny" 2) "A" =
          some (pyStrip (joinSep "\n" seg.2))) :=
  ⟨by decide, by decide,
    c1_last_write_wins "## A\nx\n## A\ny" "A" (by decide) (by decide)⟩

/-- Witness for `c8_distinct_titles`: a preamble, two distinct level-2
sections and an inner level-3 heading treated as body text. -/
theorem c8_witness :
    ¬ "" ∈ headingTitles "pre\n## A\nx\n### B\ny\n## C\nz" 2 ∧
    (headingTitles "pre\n## A\nx\n### B\ny\n## C\nz" 2).Nodup ∧
    (parse_sections "pre\n## A\nx\n### B\ny\n## C\nz" 2 =
      ((segsAux 2 (pySplitlines "pre\n## A\nx\n### B\ny\n## C\nz")).2).map
        (fun seg => (seg.1, pyStrip (joinSep "\n" seg.2))) ∧
      keysOf (parse_sections "pre\n## A\nx\n### B\ny\n## C\nz" 2) =
        headingTitles "pre\n## A\nx\n### B\ny\n## C\nz" 2 ∧
      (∀ line : String, pfxB (hashMarks 3) line.data →
        headingTitle 2 line = none)) :=
  ⟨by decide, by decide,
    c8_distinct_titles "pre\n## A\nx\n### B\ny\n## C\nz"
      (by decide) (by decide)⟩
